import Mathlib

/-!
# The VM image vault of multipass

A shallow embedding of `src/daemon/default_vm_image_vault.cpp`: the two in-memory
record tables, the two journal files, the cache directory, and the operations
`load_db`, `fetch_image`, `remove`, `expunge_invalid_image_records` and their helpers.

Conventions of the embedding.

* `std::string` and `QString` are both `String`; a *null* `QString` (which only
  `load_db` tells apart from an empty one) is `none` in `QJsonValue.toQString`.
* `std::unordered_map<std::string, VaultRecord>` is an association list; the
  operations on it never create a second entry for a key.
* The cache directory is a set of regular files (full paths) and a set of
  sub-directories (clean names relative to the cache root), next to the two journal
  files.  `QDir::filePath`, `QDir::cleanPath`, `QDir::cd`, `QDir::mkdir` and
  `QDir::rmdir` follow Qt 5 on Unix.  `QDir::mkdir` fails for an empty name, for a name
  that already denotes a directory, a regular file or a journal file, and for a name
  whose parent directory is missing; every other reason the file system may have to
  refuse (permissions, name length, a missing cache root, an unreadable journal file of
  that name, a target outside the cache directory) is the parameter `mkdir_refused`.
  `QFile::copy` does nothing when the source is missing or the target exists.
* The catalog (`VMImageHost`), the downloader (`URLDownloader`) and the prepare
  hook are parameters.  A C++ exception is a `FetchError` naming the statement
  that threw; the state at the moment of the throw is returned with it.
* Each call of a collaborator is counted in the state.
-/

namespace multipass

/-! ## Data model -/

/-- Modelled from the spec: `multipass/query.h` is not among the sources.  The field
order is the one of the aggregate built at line 119 of `default_vm_image_vault.cpp`. -/
structure Query where
  name : String
  release : String
  persistent : Bool
deriving DecidableEq, Repr

/-- Modelled from the spec: `multipass/vm_image.h` is not among the sources.  The field
order is the one of the aggregates built at lines 118 and 276-278. -/
structure VMImage where
  image_path : String
  kernel_path : String
  initrd_path : String
  id : String
deriving DecidableEq, Repr

/-- Modelled from the spec: the catalog answer (`CatalogInfo`) returned by
`VMImageHost::info_for`, declared in `multipass/vm_image_host.h` which is not among
the sources.  Only the fields `fetch_image` reads are kept. -/
structure VMImageInfo where
  id : String
  release : String
  version : String
  image_location : String
  kernel_location : String
  initrd_location : String
deriving DecidableEq, Repr

/-- Modelled from the spec: the fetch type of `multipass/vm_image_vault.h`, which is not
among the sources. -/
inductive FetchType where
  | ImageOnly
  | ImageKernelAndInitrd
deriving DecidableEq, Repr

/-- The class `VaultRecord` of `default_vm_image_vault.h`. -/
structure VaultRecord where
  image : VMImage
  query : Query
deriving DecidableEq, Repr

/-! ## String-keyed maps -/

/-- An association list standing for a map with string keys. -/
abbrev StringMap (α : Type) := List (String × α)

/-- The method `find` of a map: the value stored under `key`, if any. -/
def map_find {α : Type} : StringMap α → String → Option α
  | [], _ => none
  | (k, v) :: rest, key => if k = key then some v else map_find rest key

/-- The assignment `m[key] = value`: replaces the value of an existing key, adds the
key otherwise. -/
def map_assign {α : Type} (key : String) (value : α) : StringMap α → StringMap α
  | [] => [(key, value)]
  | (k, v) :: rest => if k = key then (k, value) :: rest else (k, v) :: map_assign key value rest

/-- The method `erase` of a map. -/
def map_erase {α : Type} (key : String) : StringMap α → StringMap α
  | [] => []
  | (k, v) :: rest => if k = key then map_erase key rest else (k, v) :: map_erase key rest

/-- The keys of a map, in iteration order. -/
def map_keys {α : Type} (m : StringMap α) : List String := m.map Prod.fst

/-- The two tables of the vault. -/
abbrev Records := StringMap VaultRecord

/-! ## JSON values and the journal encoding -/

/-- A `QJsonValue`.  Numbers play no role in the journal and are kept as integers. -/
inductive QJsonValue where
  | null
  | bool (b : Bool)
  | double (n : Int)
  | string (s : String)
  | array (items : List QJsonValue)
  | object (members : List (String × QJsonValue))
  | undefined

/-- A `QJsonObject`. -/
abbrev QJsonObject := StringMap QJsonValue

/-- `QJsonValue::toObject`: the empty object for a value that is not an object. -/
def QJsonValue.toObject : QJsonValue → QJsonObject
  | .object members => members
  | _ => []

/-- `QJsonValue::toString`: `none` is the null `QString` returned for a value that is
not a string. -/
def QJsonValue.toQString : QJsonValue → Option String
  | .string s => some s
  | _ => none

/-- `QJsonValue::isBool`. -/
def QJsonValue.isBool : QJsonValue → Bool
  | .bool _ => true
  | _ => false

/-- `QJsonValue::toBool`, with its default `false`. -/
def QJsonValue.toBool : QJsonValue → Bool
  | .bool b => b
  | _ => false

/-- `QJsonObject::operator[]`: the value under the key, `undefined` when the key is
missing.  (On a non-constant object the operator inserts `null` for a missing key;
`null` and `undefined` convert alike with `toObject`, `toString` and `isBool`, and
`load_db` tests `isEmpty` before it indexes.) -/
def QJsonObject.value (json : QJsonObject) (key : String) : QJsonValue :=
  (map_find json key).getD .undefined

/-- `QJsonObject::insert` (never called with an undefined value here). -/
def QJsonObject.insert (json : QJsonObject) (key : String) (value : QJsonValue) : QJsonObject :=
  map_assign key value json

/-- `QJsonObject::isEmpty`. -/
def QJsonObject.isEmpty (json : QJsonObject) : Bool :=
  List.isEmpty json

/-- Lines 47-53. -/
def query_to_json (query : Query) : QJsonObject :=
  let json : QJsonObject := []
  let json := json.insert "release" (.string query.release)
  let json := json.insert "persistent" (.bool query.persistent)
  json

/-- Lines 55-63. -/
def image_to_json (image : VMImage) : QJsonObject :=
  let json : QJsonObject := []
  let json := json.insert "path" (.string image.image_path)
  let json := json.insert "kernel_path" (.string image.kernel_path)
  let json := json.insert "initrd_path" (.string image.initrd_path)
  let json := json.insert "id" (.string image.id)
  json

/-- Lines 65-71. -/
def record_to_json (record : VaultRecord) : QJsonObject :=
  let json : QJsonObject := []
  let json := json.insert "image" (.object (image_to_json record.image))
  let json := json.insert "query" (.object (query_to_json record.query))
  json

/-- The loop body of `persist_instance_records` and `persist_image_records`
(lines 284-288, 295-299): the object holding one member per record. -/
def records_to_json (records : Records) : QJsonObject :=
  records.foldl (fun json record => json.insert record.1 (.object (record_to_json record.2))) []

/-- A journal file: `none` when it cannot be opened or does not parse (lines 75-83),
otherwise the object of the parsed document (empty when the document is an array). -/
abbrev JournalFile := Option QJsonObject

/-- The body of the loop of `load_db` (lines 93-119) for one member value: `none` is
the early `return {}`. -/
def load_record (record : QJsonObject) : Option VaultRecord :=
  if record.isEmpty then none
  else
    let image := (record.value "image").toObject
    if image.isEmpty then none
    else
      match (image.value "path").toQString with
      | none => none
      | some image_path =>
        let kernel_path := ((image.value "kernel_path").toQString).getD ""
        let initrd_path := ((image.value "initrd_path").toQString).getD ""
        let image_id := ((image.value "id").toQString).getD ""
        let query := (record.value "query").toObject
        if query.isEmpty then none
        else
          let release := ((query.value "release").toQString).getD ""
          let persistent := query.value "persistent"
          if !persistent.isBool then none
          else
            some ⟨⟨image_path, kernel_path, initrd_path, image_id⟩,
                  ⟨"", release, persistent.toBool⟩⟩

/-- The loop of `load_db` (lines 90-120) over the members still to visit, with the
records reconstructed so far. -/
def load_entries : QJsonObject → Records → Option Records
  | [], reconstructed_records => some reconstructed_records
  | (key, value) :: rest, reconstructed_records =>
    match load_record value.toObject with
    | none => none
    | some record => load_entries rest (map_assign key record reconstructed_records)

/-- The function `load_db` (lines 73-122). -/
def load_db (db_file : JournalFile) : Records :=
  match db_file with
  | none => []
  | some records =>
    if records.isEmpty then []
    else (load_entries records []).getD []

/-! ## The vault, its cache directory and its collaborators -/

/-- The members `prepared_image_records` and `instance_image_records` of
`DefaultVMImageVault`, the content of its cache directory, and the number of calls
made so far to the catalog, the downloader and the prepare hook. -/
structure State where
  prepared_image_records : Records
  instance_image_records : Records
  files : List String
  dirs : List String
  image_db : JournalFile
  instance_db : JournalFile
  info_for_calls : Nat
  download_calls : Nat
  prepare_calls : Nat

/-- What one call of `URLDownloader::download_to` does: it writes the file and
returns, or throws, having left a partly written file behind or not. -/
inductive DownloadOutcome where
  | ok
  | failed (leaves_file : Bool)
deriving DecidableEq, Repr

/-- The members `image_host`, `url_downloader` and `cache_dir` of the vault, and the
file system below it.  `image_host q = none` stands for `info_for` throwing;
`cache_dir` is the path the `QDir` holds (no trailing slash unless it is the root);
`mkdir_refused name` says that the file system refuses to create the directory `name`
for a reason that the content of the cache directory does not show. -/
structure Env where
  cache_dir : String
  image_host : Query → Option VMImageInfo
  url_downloader : String → DownloadOutcome
  mkdir_refused : String → Bool

/-- The argument `prepare` of `fetch_image`: the artifact it returns (`none` when it
throws) and the files it writes. -/
structure PrepareAction where
  run : VMImage → Option VMImage
  writes : VMImage → List String

/-- The statement of `fetch_image` at which an exception left the function. -/
inductive FetchError where
  | info_for
  | instance_dir_on_hit
  | image_dir
  | download_image
  | download_kernel
  | download_initrd
  | prepare
  | instance_dir_on_miss
  | expunge
deriving DecidableEq, Repr

/-- The result of a call that may throw, with the state it leaves. -/
abbrev Outcome (α : Type) := Except FetchError α × State

/-! ## Paths and files -/

/-- The characters after the last slash, read left to right. -/
def fileNameAux : List Char → List Char → List Char
  | acc, [] => acc
  | acc, c :: cs => if c = '/' then fileNameAux [] cs else fileNameAux (acc ++ [c]) cs

/-- Lines 41-45: `QFileInfo::fileName`, the part of a path after its last slash. -/
def filename_for (path : String) : String :=
  ⟨fileNameAux [] path.data⟩

/-- Line 38. -/
def instance_db_name : String :=
  "multipassd-instance-image-records.json"

/-- Line 39. -/
def image_db_name : String :=
  "multipassd-image-records.json"

/-- `QDir::isAbsolutePath` on Unix: the path starts with a slash, or with a colon (a Qt
resource path). -/
def is_absolute (path : String) : Bool :=
  decide (path.data.head? = some '/') || decide (path.data.head? = some ':')

/-- The path ends with a slash. -/
def ends_with_slash (path : String) : Bool :=
  decide (path.data.reverse.head? = some '/')

/-- `QDir::filePath`: an absolute file name is returned as it is, an empty one gives the
path of the directory, any other is appended after a slash (none is added when the
path of the directory is empty or ends with one). -/
def filePath (dir : String) (name : String) : String :=
  if is_absolute name then name
  else if name = "" then dir
  else if dir = "" ∨ ends_with_slash dir then dir ++ name
  else dir ++ "/" ++ name

/-- The segments of a path, between its slashes. -/
def split_path : List Char → List Char → List (List Char)
  | current, [] => [current]
  | current, c :: cs =>
    if c = '/' then current :: split_path [] cs else split_path (current ++ [c]) cs

/-- The segments joined by slashes. -/
def join_path : List (List Char) → List Char
  | [] => []
  | [segment] => segment
  | segment :: next :: rest => segment ++ '/' :: join_path (next :: rest)

/-- One step of `QDir::cleanPath` on the segments kept so far (last one first): empty
segments and `.` are dropped, `..` removes the segment before it. -/
def push_segment (rooted : Bool) (kept : List (List Char)) (segment : List Char) :
    List (List Char) :=
  if segment = [] ∨ segment = ['.'] then kept
  else if segment = ['.', '.'] then
    match kept with
    | [] => if rooted then [] else [segment]
    | top :: below => if top = ['.', '.'] then segment :: kept else below
  else segment :: kept

/-- `QDir::cleanPath`: the path without repeated or trailing slashes, without `.`
segments and with `..` resolved against the segment before it. -/
def cleanPath (path : String) : String :=
  let rooted := decide (path.data.head? = some '/')
  let kept := ((split_path [] path.data).foldl (push_segment rooted) []).reverse
  let body : String := ⟨join_path kept⟩
  if path = "" then ""
  else if rooted then "/" ++ body
  else if body = "" then "." else body

/-- `QDir::cd` into a directory that exists: the new path of the `QDir`.  The path is
cleaned only when the name has a slash, is `..`, or the directory is `.`. -/
def cd (dir : String) (name : String) : String :=
  if name = "" ∨ name = "." then dir
  else if is_absolute name then cleanPath name
  else
    let new_path := (if dir = "/" then dir else dir ++ "/") ++ name
    if '/' ∈ name.data ∨ name = ".." ∨ dir = "." then cleanPath new_path else new_path

/-- The directory that must exist for a clean relative name to be created: the part
before its last slash, `none` when the name has no slash. -/
def parent_of (entry : String) : Option String :=
  match (split_path [] entry.data).reverse with
  | [] => none
  | [_] => none
  | _ :: before => some ⟨join_path before.reverse⟩

/-- The clean name points outside the cache directory: it is absolute or starts with a
`..` segment. -/
def leaves_cache (entry : String) : Bool :=
  is_absolute entry || decide ((split_path [] entry.data).head? = some ['.', '.'])

/-- A file comes to exist at `path`. -/
def write_file (path : String) (s : State) : State :=
  if path ∈ s.files then s else { s with files := path :: s.files }

/-- Lines 136-140: `QFile::remove`; nothing happens when no such file exists. -/
def delete_file (path : String) (s : State) : State :=
  { s with files := s.files.filter (fun f => f ≠ path) }

/-- `QFile::copy`: fails silently when the source is missing or the target exists. -/
def QFile_copy (file_name : String) (new_path : String) (s : State) : State :=
  if file_name ∈ s.files ∧ new_path ∉ s.files then { s with files := new_path :: s.files }
  else s

/-- Lines 124-134. -/
def copy (file_name : String) (output_dir : String) (s : State) : String × State :=
  if file_name = "" then ("", s)
  else
    let source_name := filename_for file_name
    let new_path := filePath output_dir source_name
    (new_path, QFile_copy file_name new_path s)

/-- `QDir::mkdir` of the cache directory returns `true`.  It fails for an empty name;
when the name denotes the cache directory itself or its parent; when a directory, a
regular file or a journal file of that name exists; when the parent directory of the
new one is missing; and when the file system refuses for another reason. -/
def mkdir_succeeds (env : Env) (name : String) (s : State) : Bool :=
  let entry := cleanPath name
  decide (name ≠ "") &&
  decide (entry ≠ ".") && decide (entry ≠ "..") &&
  decide (entry ∉ s.dirs) &&
  decide (filePath env.cache_dir entry ∉ s.files) &&
  !(decide (entry = instance_db_name) && s.instance_db.isSome) &&
  !(decide (entry = image_db_name) && s.image_db.isSome) &&
  (leaves_cache entry ||
    (match parent_of entry with
      | none => true
      | some parent => decide (parent ∈ s.dirs))) &&
  !env.mkdir_refused name

/-- Lines 153-165, on the member `cache_dir`: `none` is the `std::runtime_error`;
otherwise the path of the new directory and the state holding it. -/
def make_dir (env : Env) (name : String) (s : State) : Option (String × State) :=
  if mkdir_succeeds env name s
  then some (cd env.cache_dir name, { s with dirs := cleanPath name :: s.dirs })
  else none

/-- `QDir::rmdir`: removes the directory only when it exists and neither a file nor a
directory lies in it. -/
def rmdir (cache_dir : String) (name : String) (s : State) : State :=
  let entry := cleanPath name
  if name = "" ∨
      s.files.any (fun f => (filePath cache_dir entry ++ "/").data.isPrefixOf f.data) ∨
      s.dirs.any (fun d => (entry ++ "/").data.isPrefixOf d.data)
  then s
  else { s with dirs := s.dirs.filter (fun d => d ≠ entry) }

/-- Lines 142-151. -/
def remove_source_images (source_image : VMImage) (prepared_image : VMImage) (s : State) : State :=
  let s := if source_image.image_path ≠ prepared_image.image_path
    then delete_file source_image.image_path s else s
  let s := if source_image.kernel_path ≠ prepared_image.kernel_path
    then delete_file source_image.kernel_path s else s
  let s := if source_image.initrd_path ≠ prepared_image.initrd_path
    then delete_file source_image.initrd_path s else s
  s

/-- Lines 167-183: a guard declared just before `body`; its destructor removes the
file when `body` is left by an exception. -/
def DeleteOnException {α : Type} (path : String) (body : Outcome α) : Outcome α :=
  match body with
  | (.error e, s) => (.error e, delete_file path s)
  | (.ok a, s) => (.ok a, s)

/-! ## Journals -/

/-- Modelled from the spec: `write_json` of `json_writer.h`, which is not among the
sources, serialises the object and writes it over the target path; the journal file
then parses to that object. -/
def write_json (json : QJsonObject) : JournalFile :=
  some json

/-- Lines 281-290. -/
def persist_instance_records (s : State) : State :=
  { s with instance_db := write_json (records_to_json s.instance_image_records) }

/-- Lines 292-301. -/
def persist_image_records (s : State) : State :=
  { s with image_db := write_json (records_to_json s.prepared_image_records) }

/-- Lines 186-194: the constructor, on a cache directory with the given content. -/
def DefaultVMImageVault (files : List String) (dirs : List String)
    (image_db : JournalFile) (instance_db : JournalFile) : State :=
  { prepared_image_records := load_db image_db
    instance_image_records := load_db instance_db
    files := files
    dirs := dirs
    image_db := image_db
    instance_db := instance_db
    info_for_calls := 0
    download_calls := 0
    prepare_calls := 0 }

/-! ## The operations -/

/-- One call of `image_host->info_for`. -/
def info_for (env : Env) (query : Query) (s : State) : Option VMImageInfo × State :=
  (env.image_host query, { s with info_for_calls := s.info_for_calls + 1 })

/-- One call of `url_downloader->download_to`; `false` is the exception. -/
def download_to (env : Env) (url : String) (path : String) (s : State) : Bool × State :=
  let s := { s with download_calls := s.download_calls + 1 }
  match env.url_downloader url with
  | .ok => (true, write_file path s)
  | .failed leaves_file => (false, if leaves_file then write_file path s else s)

/-- One call of the prepare hook. -/
def run_prepare (prepare : PrepareAction) (source_image : VMImage) (s : State) :
    Option VMImage × State :=
  let s := { s with prepare_calls := s.prepare_calls + 1 }
  (prepare.run source_image, (prepare.writes source_image).foldl (fun s f => write_file f s) s)

/-- Lines 270-279; `none` is the exception of `make_dir`. -/
def image_instance_from (env : Env) (instance_name : String) (prepared_image : VMImage)
    (s : State) : Option (VMImage × State) :=
  match make_dir env instance_name s with
  | none => none
  | some (output_dir, s) =>
    let (image_path, s) := copy prepared_image.image_path output_dir s
    let (kernel_path, s) := copy prepared_image.kernel_path output_dir s
    let (initrd_path, s) := copy prepared_image.initrd_path output_dir s
    some (⟨image_path, kernel_path, initrd_path, prepared_image.id⟩, s)

/-- The first loop of `expunge_invalid_image_records` (lines 306-312) over the records
still to visit; `none` when `info_for` throws. -/
def invalid_keys (env : Env) : Records → State → Option (List String) × State
  | [], s => (some [], s)
  | (key, record) :: rest, s =>
    match info_for env record.query s with
    | (none, s) => (none, s)
    | (some info, s) =>
      match invalid_keys env rest s with
      | (none, s) => (none, s)
      | (some keys, s) => (some (if info.id ≠ key then key :: keys else keys), s)

/-- Lines 303-316; `false` is the exception of `info_for`. -/
def expunge_invalid_image_records (env : Env) (s : State) : Bool × State :=
  match invalid_keys env s.prepared_image_records s with
  | (none, s) => (false, s)
  | (some keys, s) =>
    let records := keys.foldl (fun records key => map_erase key records) s.prepared_image_records
    (true, { s with prepared_image_records := records })

/-- Lines 232-237: the block downloading kernel and initrd, with its two guards. -/
def download_kernel_and_initrd (env : Env) (info : VMImageInfo) (image_dir : String)
    (source_image : VMImage) (s : State) : Outcome VMImage :=
  let source_image := { source_image with
    kernel_path := filePath image_dir (filename_for info.kernel_location)
    initrd_path := filePath image_dir (filename_for info.initrd_location) }
  DeleteOnException source_image.kernel_path <|
  DeleteOnException source_image.initrd_path <|
    match download_to env info.kernel_location source_image.kernel_path s with
    | (false, s) => (.error .download_kernel, s)
    | (true, s) =>
      match download_to env info.initrd_location source_image.initrd_path s with
      | (false, s) => (.error .download_initrd, s)
      | (true, s) => (.ok source_image, s)

/-- Lines 240-251. -/
def prepare_and_publish (env : Env) (query : Query) (prepare : PrepareAction) (id : String)
    (source_image : VMImage) (s : State) : Outcome VMImage :=
  match run_prepare prepare source_image s with
  | (none, s) => (.error .prepare, s)
  | (some prepared_image, s) =>
    let records := map_assign id ⟨prepared_image, query⟩ s.prepared_image_records
    let s := { s with prepared_image_records := records }
    let s := remove_source_images source_image prepared_image s
    match image_instance_from env query.name prepared_image s with
    | none => (.error .instance_dir_on_miss, s)
    | some (vm_image, s) =>
      let records := map_assign query.name ⟨vm_image, query⟩ s.instance_image_records
      let s := { s with instance_image_records := records }
      match expunge_invalid_image_records env s with
      | (false, s) => (.error .expunge, s)
      | (true, s) => (.ok vm_image, persist_instance_records (persist_image_records s))

/-- Lines 220-251: the path taken when the catalog id has no prepared record. -/
def fetch_miss (env : Env) (fetch_type : FetchType) (query : Query) (prepare : PrepareAction)
    (info : VMImageInfo) (s : State) : Outcome VMImage :=
  let id := info.id
  let image_dir_name := info.release ++ "-" ++ info.version
  match make_dir env image_dir_name s with
  | none => (.error .image_dir, s)
  | some (image_dir, s) =>
    let source_image : VMImage :=
      { image_path := filePath image_dir (filename_for info.image_location)
        kernel_path := ""
        initrd_path := ""
        id := id }
    DeleteOnException source_image.image_path <|
      match download_to env info.image_location source_image.image_path s with
      | (false, s) => (.error .download_image, s)
      | (true, s) =>
        let downloaded : Outcome VMImage :=
          if fetch_type = .ImageKernelAndInitrd
          then download_kernel_and_initrd env info image_dir source_image s
          else (.ok source_image, s)
        match downloaded with
        | (.error e, s) => (.error e, s)
        | (.ok source_image, s) => prepare_and_publish env query prepare id source_image s

/-- Lines 206-218: the prepared record exists; an instance copy is made of it. -/
def fetch_hit (env : Env) (query : Query) (record : VaultRecord) (s : State) : Outcome VMImage :=
  let prepared_image := record.image
  match image_instance_from env query.name prepared_image s with
  | none => (.error .instance_dir_on_hit, s)
  | some (vm_image, s) =>
    let records := map_assign query.name ⟨vm_image, query⟩ s.instance_image_records
    let s := { s with instance_image_records := records }
    (.ok vm_image, persist_instance_records s)

/-- `DefaultVMImageVault::fetch_image` (lines 196-252); the progress monitor, which
only observes, is left out. -/
def fetch_image (env : Env) (fetch_type : FetchType) (query : Query) (prepare : PrepareAction)
    (s : State) : Outcome VMImage :=
  match map_find s.instance_image_records query.name with
  | some record => (.ok record.image, s)
  | none =>
    match info_for env query s with
    | (none, s) => (.error .info_for, s)
    | (some info, s) =>
      match map_find s.prepared_image_records info.id with
      | some record => fetch_hit env query record s
      | none => fetch_miss env fetch_type query prepare info s

/-- `DefaultVMImageVault::remove` (lines 254-268). -/
def remove (env : Env) (name : String) (s : State) : State :=
  match map_find s.instance_image_records name with
  | none => s
  | some record =>
    let s := delete_file record.image.image_path s
    let s := delete_file record.image.kernel_path s
    let s := delete_file record.image.initrd_path s
    let s := rmdir env.cache_dir name s
    let s := { s with instance_image_records := map_erase name s.instance_image_records }
    persist_instance_records s

/-! ## Notions used to state the properties -/

/-- A record as the journal keeps it: the name of the query is not written. -/
def forget_name (record : VaultRecord) : VaultRecord :=
  ⟨record.image, ⟨"", record.query.release, record.query.persistent⟩⟩

/-- A table as the journal keeps it. -/
def journaled (records : Records) : Records :=
  records.map (fun kr => (kr.1, forget_name kr.2))

/-- The conditions the journal format puts on one member value, in the words of the
specification: it is an object, its `image` is a non-empty object holding a string
`path`, its `query` is a non-empty object holding a boolean `persistent`. -/
def well_formed_entry : QJsonValue → Bool
  | .object record =>
    (match map_find record "image" with
      | some (.object image) =>
        !image.isEmpty &&
          (match map_find image "path" with
            | some (.string _) => true
            | _ => false)
      | _ => false) &&
    (match map_find record "query" with
      | some (.object query) =>
        !query.isEmpty &&
          (match map_find query "persistent" with
            | some (.bool _) => true
            | _ => false)
      | _ => false)
  | _ => false

/-- Two states that differ at most in the files and directories of the cache. -/
structure DiskOnly (s s' : State) : Prop where
  prepared : s'.prepared_image_records = s.prepared_image_records
  instances : s'.instance_image_records = s.instance_image_records
  image_db : s'.image_db = s.image_db
  instance_db : s'.instance_db = s.instance_db
  info_for_calls : s'.info_for_calls = s.info_for_calls
  download_calls : s'.download_calls = s.download_calls
  prepare_calls : s'.prepare_calls = s.prepare_calls

/-- The path of the instance copy of a prepared file (lines 126-133 and 274). -/
def instance_path (cache_dir : String) (name : String) (prepared_path : String) : String :=
  if prepared_path = "" then ""
  else filePath (cd cache_dir name) (filename_for prepared_path)

/-- A name that denotes an entry directly below the cache directory: not empty, without
a slash, not `.` or `..`, and not a Qt resource name (starting with a colon). -/
def plain_name (name : String) : Prop :=
  name ≠ "" ∧ '/' ∉ name.data ∧ name ≠ "." ∧ name ≠ ".." ∧ name.data.head? ≠ some ':'

/-- A path whose basename is a file name that `QDir::filePath` appends after a slash:
the basename is not empty and does not start with a colon. -/
def has_ordinary_basename (path : String) : Prop :=
  filename_for path ≠ "" ∧ (filename_for path).data.head? ≠ some ':'

/-- A cache path to which a plain name is appended after a slash and which cleaning
leaves alone: not empty, not `.`, without a trailing slash (so not the root), and
already clean. -/
def ordinary_cache_dir (cache_dir : String) : Prop :=
  cache_dir ≠ "" ∧ cache_dir ≠ "." ∧ ends_with_slash cache_dir = false ∧
    cleanPath cache_dir = cache_dir

/-- The states reached from an initial state by calls of `fetch_image` and `remove`;
`allowed` says which calls of `fetch_image` are considered. -/
inductive Reachable (initial : State → Prop)
    (allowed : Env → FetchType → Query → PrepareAction → State → Prop) : State → Prop where
  | start (s : State) : initial s → Reachable initial allowed s
  | after_fetch (env : Env) (fetch_type : FetchType) (query : Query) (prepare : PrepareAction)
      (s : State) : Reachable initial allowed s → allowed env fetch_type query prepare s →
      Reachable initial allowed (fetch_image env fetch_type query prepare s).2
  | after_remove (env : Env) (name : String) (s : State) :
      Reachable initial allowed s → Reachable initial allowed (remove env name s)

/-- A vault whose two tables are empty. -/
def empty_tables (s : State) : Prop :=
  s.prepared_image_records = [] ∧ s.instance_image_records = []

/-- Every call of `fetch_image` is considered. -/
def any_call : Env → FetchType → Query → PrepareAction → State → Prop :=
  fun _ _ _ _ _ => True

/-- The calls whose prepare hook returns an artifact with the id of its argument. -/
def hook_keeps_id : Env → FetchType → Query → PrepareAction → State → Prop :=
  fun _ _ _ prepare _ =>
    ∀ source_image prepared_image, prepare.run source_image = some prepared_image →
      prepared_image.id = source_image.id

/-- A path that the source cleanup treats as superseded: the source path of a field whose
prepared path is different (the three tests of lines 145, 147 and 149). -/
def superseded (source_image prepared_image : VMImage) (path : String) : Prop :=
  (path = source_image.image_path ∧ source_image.image_path ≠ prepared_image.image_path) ∨
  (path = source_image.kernel_path ∧ source_image.kernel_path ≠ prepared_image.kernel_path) ∨
  (path = source_image.initrd_path ∧ source_image.initrd_path ≠ prepared_image.initrd_path)

/-- The paths held by the three path fields of an artifact. -/
def paths_of (image : VMImage) : List String :=
  [image.image_path, image.kernel_path, image.initrd_path]

/-- A prepared artifact takes over a source path of another field only when that field
left its own source file in place: whenever a prepared path is the source path of a
different field, that field has the same source and prepared path. -/
def reuses_only_kept_sources (source_image prepared_image : VMImage) : Prop :=
  (prepared_image.kernel_path = source_image.image_path →
    source_image.image_path = prepared_image.image_path) ∧
  (prepared_image.initrd_path = source_image.image_path →
    source_image.image_path = prepared_image.image_path) ∧
  (prepared_image.image_path = source_image.kernel_path →
    source_image.kernel_path = prepared_image.kernel_path) ∧
  (prepared_image.initrd_path = source_image.kernel_path →
    source_image.kernel_path = prepared_image.kernel_path) ∧
  (prepared_image.image_path = source_image.initrd_path →
    source_image.initrd_path = prepared_image.initrd_path) ∧
  (prepared_image.kernel_path = source_image.initrd_path →
    source_image.initrd_path = prepared_image.initrd_path)

/-- The catalog answer of the scenarios: release 18.04, version 1, id abc123. -/
def info_18_04 : VMImageInfo :=
  { id := "abc123"
    release := "18.04"
    version := "1"
    image_location := "https://ex/img.img"
    kernel_location := "https://ex/vmlinuz"
    initrd_location := "https://ex/initrd.img" }

/-- A catalog that knows release 18.04 only. -/
def catalog : Query → Option VMImageInfo :=
  fun query => if query.release = "18.04" then some info_18_04 else none

/-- The query of the scenarios, for an instance name. -/
def query_18_04 (name : String) : Query :=
  ⟨name, "18.04", true⟩

/-- A vault on `/cache` whose downloader works. -/
def healthy : Env :=
  ⟨"/cache", catalog, fun _ => .ok, fun _ => false⟩

/-- A vault on `/cache` whose downloader fails after writing part of the file. -/
def broken_download : Env :=
  ⟨"/cache", catalog, fun _ => .failed true, fun _ => false⟩

/-- The prepare hook that returns its argument. -/
def identity_prepare : PrepareAction :=
  ⟨fun source_image => some source_image, fun _ => []⟩

/-- A prepare hook that throws. -/
def failing_prepare : PrepareAction :=
  ⟨fun _ => none, fun _ => []⟩

/-- A vault constructed on an empty cache directory. -/
def cold_cache : State :=
  DefaultVMImageVault [] [] none none

/-- A table with one record, as the cold fetch of the scenarios leaves it. -/
def example_records : Records :=
  [("abc123", ⟨⟨"/cache/18.04-1/img.img", "", "", "abc123"⟩, query_18_04 "inst0"⟩)]

/-- A journal with one well-formed member and one member that is not an object. -/
def damaged_journal : QJsonObject :=
  [("abc123", .object (record_to_json ⟨⟨"/cache/18.04-1/img.img", "", "", "abc123"⟩,
      query_18_04 "inst0"⟩)),
   ("def456", .string "lost")]

/-- A vault constructed on a cache directory that already holds a directory `inst0`. -/
def occupied_cache : State :=
  DefaultVMImageVault [] ["inst0"] none none

/-- A prepare hook that returns its argument under another id. -/
def restamping_prepare : PrepareAction :=
  ⟨fun source_image => some { source_image with id := "zzz" }, fun _ => []⟩

/-- The catalog answer for release 16.04. -/
def info_16_04 : VMImageInfo :=
  { id := "old789"
    release := "16.04"
    version := "7"
    image_location := "https://ex/old.img"
    kernel_location := ""
    initrd_location := "" }

/-- A catalog that knows releases 16.04 and 18.04. -/
def earlier_catalog : Query → Option VMImageInfo :=
  fun query => if query.release = "16.04" then some info_16_04 else catalog query

/-- The vault on `/cache` at the time the catalog still knew release 16.04. -/
def earlier : Env :=
  ⟨"/cache", earlier_catalog, fun _ => .ok, fun _ => false⟩

/-- The state after a first instance was fetched from release 16.04. -/
def after_first_fetch : State :=
  (fetch_image earlier .ImageOnly ⟨"inst_old", "16.04", true⟩ identity_prepare cold_cache).2

/-- The state after, release 16.04 having left the catalog, a fetch of `inst0` threw
during invalidation. -/
def after_failed_fetch : State :=
  (fetch_image healthy .ImageOnly (query_18_04 "inst0") identity_prepare after_first_fetch).2

/-- The state after a download failed on a cold cache. -/
def after_failed_download : State :=
  (fetch_image broken_download .ImageOnly (query_18_04 "inst0") identity_prepare cold_cache).2

/-- The state after the cold fetch of the scenarios. -/
def after_cold_fetch : State :=
  (fetch_image healthy .ImageOnly (query_18_04 "inst0") identity_prepare cold_cache).2

/-- The source artifact of a fetch with kernel and initrd in the scenarios. -/
def three_sources : VMImage :=
  ⟨"/cache/18.04-1/img.img", "/cache/18.04-1/vmlinuz", "/cache/18.04-1/initrd.img", "abc123"⟩

/-- The cache directory once the three files of `three_sources` are downloaded. -/
def after_three_downloads : State :=
  { cold_cache with
    files := ["/cache/18.04-1/initrd.img", "/cache/18.04-1/vmlinuz", "/cache/18.04-1/img.img"]
    dirs := ["18.04-1"]
    info_for_calls := 1
    download_calls := 3 }

/-- A prepare hook that returns the source artifact with kernel and initrd exchanged. -/
def swapping_prepare : PrepareAction :=
  ⟨fun source_image => some { source_image with
      kernel_path := source_image.initrd_path
      initrd_path := source_image.kernel_path },
   fun _ => []⟩

/-- The prepare hook of the scenario "prepare transforms": the image becomes
`img.qcow2` next to the source, kernel and initrd are left alone. -/
def converting_prepare : PrepareAction :=
  ⟨fun source_image => some { source_image with image_path := "/cache/18.04-1/img.qcow2" },
   fun _ => ["/cache/18.04-1/img.qcow2"]⟩

/-- A prepare hook that returns the image directory, with its final slash, as the
image path. -/
def slash_prepare : PrepareAction :=
  ⟨fun source_image => some { source_image with image_path := "/cache/18.04-1/" },
   fun _ => []⟩

/-- The state after a cold fetch with `slash_prepare`. -/
def after_slash_fetch : State :=
  (fetch_image healthy .ImageOnly (query_18_04 "inst0") slash_prepare cold_cache).2

/-- A source artifact whose image and kernel were downloaded to the same path. -/
def shared_sources : VMImage :=
  ⟨"/cache/a", "/cache/a", "", "abc123"⟩

/-- A prepared artifact that keeps the image of `shared_sources` and has a new kernel. -/
def shared_prepared : VMImage :=
  ⟨"/cache/a", "/cache/b", "", "abc123"⟩

/-- A cache directory holding the files of `shared_sources` and `shared_prepared`. -/
def shared_cache : State :=
  { cold_cache with files := ["/cache/b", "/cache/a"] }

/-! ## Theorems -/

/-! ### Maps -/

theorem map_find_assign_self {α : Type} (key : String) (value : α) (m : StringMap α) :
    map_find (map_assign key value m) key = some value := by
  induction m with
  | nil => simp [map_assign, map_find]
  | cons kv rest ih =>
    obtain ⟨k, v⟩ := kv
    by_cases h : k = key <;> simp [map_assign, map_find, h, ih]

theorem map_find_assign_ne {α : Type} (key other : String) (value : α) (m : StringMap α)
    (h : key ≠ other) : map_find (map_assign key value m) other = map_find m other := by
  induction m with
  | nil => simp [map_assign, map_find, h]
  | cons kv rest ih =>
    obtain ⟨k, v⟩ := kv
    by_cases hk : k = key
    · subst hk
      simp [map_assign, map_find, h]
    · by_cases ho : k = other
      · subst ho
        simp [map_assign, map_find, hk]
      · simp [map_assign, map_find, hk, ho, ih]

theorem map_find_eq_none_iff {α : Type} (key : String) (m : StringMap α) :
    map_find m key = none ↔ key ∉ map_keys m := by
  induction m with
  | nil => simp [map_find, map_keys]
  | cons kv rest ih =>
    obtain ⟨k, v⟩ := kv
    by_cases h : k = key
    · simp [map_find, map_keys, h]
    · have h2 : ¬ key = k := fun e => h e.symm
      simp only [map_keys] at ih
      simp [map_find, map_keys, h, h2, ih]

theorem map_find_some_mem {α : Type} (key : String) (value : α) (m : StringMap α)
    (h : map_find m key = some value) : (key, value) ∈ m := by
  induction m with
  | nil => simp [map_find] at h
  | cons kv rest ih =>
    obtain ⟨k, v⟩ := kv
    by_cases hk : k = key
    · simp [map_find, hk] at h
      simp [hk, h]
    · simp [map_find, hk] at h
      exact List.mem_cons_of_mem _ (ih h)

theorem map_assign_of_not_mem {α : Type} (key : String) (value : α) (m : StringMap α)
    (h : key ∉ map_keys m) : map_assign key value m = m ++ [(key, value)] := by
  induction m with
  | nil => simp [map_assign]
  | cons kv rest ih =>
    obtain ⟨k, v⟩ := kv
    simp only [map_keys, List.map_cons, List.mem_cons, not_or] at h
    have hk : ¬ k = key := fun e => h.1 e.symm
    simp only [map_keys] at ih
    simp [map_assign, hk, ih h.2]

theorem mem_map_assign {α : Type} (key : String) (value : α) (m : StringMap α)
    (kv : String × α) (h : kv ∈ map_assign key value m) : kv = (key, value) ∨ kv ∈ m := by
  induction m with
  | nil => simpa [map_assign] using h
  | cons e rest ih =>
    obtain ⟨k, v⟩ := e
    by_cases hk : k = key
    · simp only [map_assign, hk, if_true, List.mem_cons] at h
      rcases h with h | h
      · exact Or.inl h
      · exact Or.inr (List.mem_cons_of_mem _ h)
    · simp only [map_assign, hk, if_false, List.mem_cons] at h
      rcases h with h | h
      · exact Or.inr (by simp [h])
      · rcases ih h with h2 | h2
        · exact Or.inl h2
        · exact Or.inr (List.mem_cons_of_mem _ h2)

theorem mem_map_keys_assign {α : Type} (key other : String) (value : α) (m : StringMap α) :
    other ∈ map_keys (map_assign key value m) ↔ other = key ∨ other ∈ map_keys m := by
  induction m with
  | nil => simp [map_assign, map_keys]
  | cons e rest ih =>
    obtain ⟨k, v⟩ := e
    simp only [map_keys] at ih
    by_cases hk : k = key
    · subst hk
      simp [map_assign, map_keys]
    · simp only [map_assign, hk, if_false, map_keys, List.map_cons, List.mem_cons, ih]
      tauto

theorem map_keys_assign_nodup {α : Type} (key : String) (value : α) (m : StringMap α)
    (h : (map_keys m).Nodup) : (map_keys (map_assign key value m)).Nodup := by
  induction m with
  | nil => simp [map_assign, map_keys]
  | cons e rest ih =>
    obtain ⟨k, v⟩ := e
    simp only [map_keys, List.map_cons, List.nodup_cons] at h
    by_cases hk : k = key
    · subst hk
      simpa [map_assign, map_keys] using h
    · have hmem := mem_map_keys_assign key k value rest
      simp only [map_keys] at hmem ih
      simp only [map_assign, hk, if_false, map_keys, List.map_cons, List.nodup_cons, hmem]
      refine ⟨?_, ih h.2⟩
      intro hc
      rcases hc with hc | hc
      · exact hc.elim
      · exact h.1 hc

theorem mem_map_erase {α : Type} (key : String) (m : StringMap α) (kv : String × α)
    (h : kv ∈ map_erase key m) : kv ∈ m := by
  induction m with
  | nil => simp [map_erase] at h
  | cons e rest ih =>
    obtain ⟨k, v⟩ := e
    by_cases hk : k = key
    · simp only [map_erase, hk, if_true] at h
      exact List.mem_cons_of_mem _ (ih h)
    · simp only [map_erase, hk, if_false, List.mem_cons] at h
      rcases h with h | h
      · simp [h]
      · exact List.mem_cons_of_mem _ (ih h)

theorem mem_map_erase_all {α : Type} (keys : List String) (m : StringMap α) (kv : String × α)
    (h : kv ∈ keys.foldl (fun records key => map_erase key records) m) : kv ∈ m := by
  induction keys generalizing m with
  | nil => simpa using h
  | cons k rest ih => exact mem_map_erase k m kv (ih _ h)

/-! ### The journal encoding -/

theorem load_record_record_to_json (record : VaultRecord) :
    load_record (record_to_json record) = some (forget_name record) := by
  simp [load_record, record_to_json, image_to_json, query_to_json, QJsonObject.insert,
    QJsonObject.value, QJsonObject.isEmpty, map_assign, map_find, QJsonValue.toObject,
    QJsonValue.toQString, QJsonValue.isBool, QJsonValue.toBool, forget_name]

theorem records_to_json_from (records : Records) (json : QJsonObject)
    (h : (map_keys json ++ map_keys records).Nodup) :
    records.foldl (fun json record => json.insert record.1 (.object (record_to_json record.2))) json
      = json ++ records.map (fun kr => (kr.1, QJsonValue.object (record_to_json kr.2))) := by
  induction records generalizing json with
  | nil => simp
  | cons kr rest ih =>
    obtain ⟨k, r⟩ := kr
    have hk : k ∉ map_keys json := by
      intro hc
      have := (List.nodup_append.mp h).2.2
      exact this hc (by simp [map_keys])
    have hnext : (map_keys (json ++ [(k, QJsonValue.object (record_to_json r))])
        ++ map_keys rest).Nodup := by
      simpa [map_keys] using h
    simp only [List.foldl_cons, QJsonObject.insert, map_assign_of_not_mem k _ json hk]
    simpa [QJsonObject.insert] using ih _ hnext

theorem records_to_json_eq (records : Records) (h : (map_keys records).Nodup) :
    records_to_json records
      = records.map (fun kr => (kr.1, QJsonValue.object (record_to_json kr.2))) := by
  have := records_to_json_from records [] (by simpa [map_keys] using h)
  simpa [records_to_json] using this

theorem load_entries_to_json (records : Records) (acc : Records)
    (h : (map_keys acc ++ map_keys records).Nodup) :
    load_entries (records.map (fun kr => (kr.1, QJsonValue.object (record_to_json kr.2)))) acc
      = some (acc ++ journaled records) := by
  induction records generalizing acc with
  | nil => simp [load_entries, journaled]
  | cons kr rest ih =>
    obtain ⟨k, r⟩ := kr
    have hk : k ∉ map_keys acc := by
      intro hc
      have := (List.nodup_append.mp h).2.2
      exact this hc (by simp [map_keys])
    have hnext : (map_keys (acc ++ [(k, forget_name r)]) ++ map_keys rest).Nodup := by
      simpa [map_keys] using h
    simp only [List.map_cons, load_entries, QJsonValue.toObject, load_record_record_to_json,
      map_assign_of_not_mem k _ acc hk]
    rw [ih _ hnext]
    simp [journaled]

theorem load_db_records_to_json (records : Records) (h : (map_keys records).Nodup) :
    load_db (some (records_to_json records)) = journaled records := by
  rw [records_to_json_eq records h]
  cases records with
  | nil => simp [load_db, journaled, QJsonObject.isEmpty]
  | cons kr rest =>
    have := load_entries_to_json (kr :: rest) [] (by simpa [map_keys] using h)
    simp only [load_db, QJsonObject.isEmpty, List.map_cons, List.isEmpty_cons]
    simp only [List.map_cons] at this
    simp [this]

theorem load_record_isSome (entry : QJsonValue) :
    (load_record entry.toObject).isSome = well_formed_entry entry := by
  cases entry with
  | object record =>
    cases record with
    | nil => simp [load_record, well_formed_entry, QJsonValue.toObject, QJsonObject.isEmpty, map_find]
    | cons e rest =>
      simp only [QJsonValue.toObject, well_formed_entry, load_record, QJsonObject.value,
        QJsonObject.isEmpty, List.isEmpty_cons]
      cases himg : map_find (e :: rest) "image" with
      | none => simp [QJsonValue.toObject]
      | some v =>
        cases v with
        | object image =>
          cases image with
          | nil => simp [QJsonValue.toObject]
          | cons ie irest =>
            cases hpath : map_find (ie :: irest) "path" with
            | none => simp [QJsonValue.toObject, QJsonValue.toQString, hpath]
            | some p =>
              cases p with
              | string path =>
                cases hq : map_find (e :: rest) "query" with
                | none => simp [QJsonValue.toObject, QJsonValue.toQString, hpath]
                | some q =>
                  cases q with
                  | object query =>
                    cases query with
                    | nil => simp [QJsonValue.toObject, QJsonValue.toQString, hpath]
                    | cons qe qrest =>
                      cases hp : map_find (qe :: qrest) "persistent" with
                      | none => simp [QJsonValue.toObject, QJsonValue.toQString, hpath, hp, QJsonValue.isBool]
                      | some b =>
                        cases b <;>
                          simp [QJsonValue.toObject, QJsonValue.toQString, hpath, hp, QJsonValue.isBool]
                  | _ => simp [QJsonValue.toObject, QJsonValue.toQString, hpath]
              | _ => simp [QJsonValue.toObject, QJsonValue.toQString, hpath]
        | _ => simp [QJsonValue.toObject]
  | _ => simp [load_record, well_formed_entry, QJsonValue.toObject, QJsonObject.isEmpty]

theorem load_record_forget_name (json : QJsonObject) (record : VaultRecord)
    (h : load_record json = some record) : forget_name record = record := by
  simp only [load_record] at h
  repeat' split at h
  all_goals
    first
      | (simp at h; done)
      | (simp only [Option.some.injEq] at h
         subst h
         rfl)

theorem load_entries_none_of_bad (records : QJsonObject) (acc : Records)
    (h : ∃ entry ∈ records, well_formed_entry entry.2 = false) :
    load_entries records acc = none := by
  induction records generalizing acc with
  | nil => simp at h
  | cons e rest ih =>
    obtain ⟨k, v⟩ := e
    cases hl : load_record v.toObject with
    | none => simp [load_entries, hl]
    | some record =>
      have hv : well_formed_entry v = true := by
        rw [← load_record_isSome, hl]
        rfl
      obtain ⟨entry, hmem, hbad⟩ := h
      rcases List.mem_cons.mp hmem with heq | hin
      · subst heq
        simp [hv] at hbad
      · simp only [load_entries, hl]
        exact ih _ ⟨entry, hin, hbad⟩

theorem load_entries_some (records : QJsonObject) (acc out : Records)
    (h : load_entries records acc = some out) :
    ((map_keys acc).Nodup → (map_keys out).Nodup) ∧
    (∀ key, key ∈ map_keys out ↔ key ∈ map_keys acc ∨ key ∈ map_keys records) ∧
    ((∀ kr ∈ acc, forget_name kr.2 = kr.2) → ∀ kr ∈ out, forget_name kr.2 = kr.2) := by
  induction records generalizing acc with
  | nil =>
    simp only [load_entries, Option.some.injEq] at h
    subst h
    simp [map_keys]
  | cons e rest ih =>
    obtain ⟨k, v⟩ := e
    cases hl : load_record v.toObject with
    | none => simp [load_entries, hl] at h
    | some record =>
      simp only [load_entries, hl] at h
      obtain ⟨h1, h2, h3⟩ := ih _ h
      refine ⟨fun hn => h1 (map_keys_assign_nodup k record acc hn), ?_, ?_⟩
      · intro key
        rw [h2 key, mem_map_keys_assign]
        simp only [map_keys, List.map_cons, List.mem_cons]
        tauto
      · intro hacc
        apply h3
        intro kr hkr
        rcases mem_map_assign k record acc kr hkr with heq | hin
        · subst heq
          exact load_record_forget_name _ _ hl
        · exact hacc kr hin

theorem load_entries_of_well_formed (records : QJsonObject) (acc : Records)
    (h : ∀ entry ∈ records, well_formed_entry entry.2 = true) :
    ∃ out, load_entries records acc = some out := by
  induction records generalizing acc with
  | nil => exact ⟨acc, rfl⟩
  | cons e rest ih =>
    obtain ⟨k, v⟩ := e
    have hv : (load_record v.toObject).isSome = true := by
      rw [load_record_isSome]
      exact h (k, v) (List.mem_cons_self _ _)
    obtain ⟨record, hl⟩ := Option.isSome_iff_exists.mp hv
    simp only [load_entries, hl]
    exact ih _ (fun entry hin => h entry (List.mem_cons_of_mem _ hin))

theorem load_db_keys_nodup (db_file : JournalFile) : (map_keys (load_db db_file)).Nodup := by
  cases db_file with
  | none => simp [load_db, map_keys]
  | some records =>
    simp only [load_db]
    split
    · simp [map_keys]
    · cases hl : load_entries records [] with
      | none => simp [map_keys]
      | some out => exact (load_entries_some records [] out hl).1 (by simp [map_keys])

theorem load_record_optional_paths (json : QJsonObject) (record : VaultRecord)
    (h : load_record json = some record) :
    record.image.kernel_path
        = (((json.value "image").toObject.value "kernel_path").toQString).getD "" ∧
    record.image.initrd_path
        = (((json.value "image").toObject.value "initrd_path").toQString).getD "" := by
  simp only [load_record] at h
  repeat' split at h
  all_goals
    first
      | (simp at h; done)
      | (simp only [Option.some.injEq] at h
         subst h
         exact ⟨rfl, rfl⟩)

/-! ### C9 and C10: the journal -/

/-- C9. Journal round trip: for a table (a map, so with distinct keys) whose records all
have a non-empty image path, loading the journal obtained by serialising the table
gives the same keys in the same order, each with the same image path, kernel path,
initrd path, id, release and persistent flag, and with an empty query name. -/
theorem journal_round_trip (records : Records)
    (h_keys : (map_keys records).Nodup)
    (_h_path : ∀ kr ∈ records, kr.2.image.image_path ≠ "") :
    load_db (some (records_to_json records))
      = records.map (fun kr =>
          (kr.1, (⟨⟨kr.2.image.image_path, kr.2.image.kernel_path, kr.2.image.initrd_path,
                    kr.2.image.id⟩,
                   ⟨"", kr.2.query.release, kr.2.query.persistent⟩⟩ : VaultRecord))) := by
  rw [load_db_records_to_json records h_keys]
  rfl

theorem journal_round_trip_witness :
    (map_keys example_records).Nodup ∧
    (∀ kr ∈ example_records, kr.2.image.image_path ≠ "") ∧
    load_db (some (records_to_json example_records))
      = [("abc123", ⟨⟨"/cache/18.04-1/img.img", "", "", "abc123"⟩, ⟨"", "18.04", true⟩⟩)] :=
  ⟨by decide, by decide, journal_round_trip example_records (by decide) (by decide)⟩

/-- C10. Journal load is all-or-nothing: when some member of the journal object is not
well formed (not an object; image missing, empty or without a string path; query
missing or empty; persistent not a boolean), `load_db` returns the empty table,
whatever the other members and their order; when every member is well formed it
returns a table with exactly the keys of the object, each once.  A missing
`kernel_path` or `initrd_path` loads as the empty path, like an explicit empty string. -/
theorem load_db_all_or_nothing :
    (∀ records : QJsonObject,
      (∃ entry ∈ records, well_formed_entry entry.2 = false) → load_db (some records) = []) ∧
    (∀ records : QJsonObject,
      (∀ entry ∈ records, well_formed_entry entry.2 = true) →
        (map_keys (load_db (some records))).Nodup ∧
        ∀ key, key ∈ map_keys (load_db (some records)) ↔ key ∈ map_keys records) ∧
    (∀ (json : QJsonObject) (record : VaultRecord), load_record json = some record →
      ((map_find (json.value "image").toObject "kernel_path" = none ∨
        map_find (json.value "image").toObject "kernel_path" = some (.string "")) →
          record.image.kernel_path = "") ∧
      ((map_find (json.value "image").toObject "initrd_path" = none ∨
        map_find (json.value "image").toObject "initrd_path" = some (.string "")) →
          record.image.initrd_path = "")) := by
  refine ⟨?_, ?_, ?_⟩
  · intro records hbad
    simp only [load_db]
    split
    · rfl
    · rw [load_entries_none_of_bad records [] hbad]
      rfl
  · intro records hall
    refine ⟨load_db_keys_nodup _, ?_⟩
    intro key
    simp only [load_db]
    cases records with
    | nil => simp [QJsonObject.isEmpty, map_keys]
    | cons e rest =>
      obtain ⟨out, hout⟩ := load_entries_of_well_formed (e :: rest) [] hall
      have := (load_entries_some _ _ _ hout).2.1 key
      simpa [QJsonObject.isEmpty, hout, map_keys] using this
  · intro json record hload
    obtain ⟨hk, hi⟩ := load_record_optional_paths json record hload
    refine ⟨?_, ?_⟩
    · rintro (h | h)
      · rw [hk]
        unfold QJsonObject.value at h ⊢
        simp [h, QJsonValue.toQString]
      · rw [hk]
        unfold QJsonObject.value at h ⊢
        simp [h, QJsonValue.toQString]
    · rintro (h | h)
      · rw [hi]
        unfold QJsonObject.value at h ⊢
        simp [h, QJsonValue.toQString]
      · rw [hi]
        unfold QJsonObject.value at h ⊢
        simp [h, QJsonValue.toQString]

theorem load_db_all_or_nothing_witness :
    (∃ entry ∈ damaged_journal, well_formed_entry entry.2 = false) ∧
    load_db (some damaged_journal) = [] :=
  ⟨⟨("def456", .string "lost"), by simp [damaged_journal], rfl⟩,
   load_db_all_or_nothing.1 damaged_journal
     ⟨("def456", .string "lost"), by simp [damaged_journal], rfl⟩⟩

/-! ### What the helpers leave alone -/

theorem DiskOnly.refl (s : State) : DiskOnly s s :=
  ⟨rfl, rfl, rfl, rfl, rfl, rfl, rfl⟩

theorem DiskOnly.trans {a b c : State} (h1 : DiskOnly a b) (h2 : DiskOnly b c) : DiskOnly a c :=
  ⟨h2.prepared.trans h1.prepared, h2.instances.trans h1.instances,
   h2.image_db.trans h1.image_db, h2.instance_db.trans h1.instance_db,
   h2.info_for_calls.trans h1.info_for_calls, h2.download_calls.trans h1.download_calls,
   h2.prepare_calls.trans h1.prepare_calls⟩

theorem diskOnly_write_file (path : String) (s : State) : DiskOnly s (write_file path s) := by
  unfold write_file
  split
  · exact DiskOnly.refl s
  · exact ⟨rfl, rfl, rfl, rfl, rfl, rfl, rfl⟩

theorem diskOnly_delete_file (path : String) (s : State) : DiskOnly s (delete_file path s) :=
  ⟨rfl, rfl, rfl, rfl, rfl, rfl, rfl⟩

theorem diskOnly_QFile_copy (file_name new_path : String) (s : State) :
    DiskOnly s (QFile_copy file_name new_path s) := by
  unfold QFile_copy
  split
  · exact ⟨rfl, rfl, rfl, rfl, rfl, rfl, rfl⟩
  · exact DiskOnly.refl s

theorem diskOnly_copy (file_name output_dir : String) (s : State) :
    DiskOnly s (copy file_name output_dir s).2 := by
  unfold copy
  split
  · exact DiskOnly.refl s
  · exact diskOnly_QFile_copy _ _ s

theorem copy_fst (file_name output_dir : String) (s : State) :
    (copy file_name output_dir s).1
      = if file_name = "" then "" else filePath output_dir (filename_for file_name) := by
  unfold copy
  split <;> simp

theorem copy_dirs (file_name output_dir : String) (s : State) :
    (copy file_name output_dir s).2.dirs = s.dirs := by
  unfold copy QFile_copy
  split
  · rfl
  · dsimp only
    split <;> rfl

theorem diskOnly_rmdir (cache_dir name : String) (s : State) :
    DiskOnly s (rmdir cache_dir name s) := by
  unfold rmdir
  dsimp only
  split
  · exact DiskOnly.refl s
  · exact ⟨rfl, rfl, rfl, rfl, rfl, rfl, rfl⟩

theorem diskOnly_remove_source_images (source_image prepared_image : VMImage) (s : State) :
    DiskOnly s (remove_source_images source_image prepared_image s) := by
  unfold remove_source_images
  have step : ∀ (c : Prop) [Decidable c] (path : String) (t : State),
      DiskOnly t (if c then delete_file path t else t) := by
    intro c _ path t
    split
    · exact diskOnly_delete_file path t
    · exact DiskOnly.refl t
  exact ((step _ _ _).trans (step _ _ _)).trans (step _ _ _)

theorem make_dir_some (env : Env) (name : String) (s : State) (dir : String) (s' : State)
    (h : make_dir env name s = some (dir, s')) :
    mkdir_succeeds env name s = true ∧ dir = cd env.cache_dir name ∧
      s'.dirs = cleanPath name :: s.dirs ∧ s'.files = s.files ∧ DiskOnly s s' := by
  unfold make_dir at h
  split at h
  · rename_i hn
    simp only [Option.some.injEq, Prod.mk.injEq] at h
    obtain ⟨h1, h2⟩ := h
    subst h1 h2
    exact ⟨hn, rfl, rfl, rfl, ⟨rfl, rfl, rfl, rfl, rfl, rfl, rfl⟩⟩
  · simp at h

theorem make_dir_eq_none (env : Env) (name : String) (s : State) :
    make_dir env name s = none ↔ mkdir_succeeds env name s = false := by
  unfold make_dir
  split <;> simp [*]

theorem image_instance_from_some (env : Env) (name : String) (prepared_image : VMImage)
    (s : State) (vm_image : VMImage) (s' : State)
    (h : image_instance_from env name prepared_image s = some (vm_image, s')) :
    mkdir_succeeds env name s = true ∧
    vm_image = ⟨instance_path env.cache_dir name prepared_image.image_path,
                instance_path env.cache_dir name prepared_image.kernel_path,
                instance_path env.cache_dir name prepared_image.initrd_path,
                prepared_image.id⟩ ∧
    DiskOnly s s' := by
  unfold image_instance_from at h
  cases hm : make_dir env name s with
  | none => simp [hm] at h
  | some p =>
    obtain ⟨dir, s1⟩ := p
    obtain ⟨hn, hdir, -, -, hd⟩ := make_dir_some env name s dir s1 hm
    simp only [hm, Option.some.injEq, Prod.mk.injEq] at h
    obtain ⟨h1, h2⟩ := h
    subst h1 h2 hdir
    refine ⟨hn, ?_, ?_⟩
    · simp [copy_fst, instance_path]
    · exact ((hd.trans (diskOnly_copy _ _ _)).trans (diskOnly_copy _ _ _)).trans
        (diskOnly_copy _ _ _)

theorem image_instance_from_eq_none (env : Env) (name : String) (prepared_image : VMImage)
    (s : State) :
    image_instance_from env name prepared_image s = none ↔ mkdir_succeeds env name s = false := by
  unfold image_instance_from
  cases hm : make_dir env name s with
  | none => simpa using (make_dir_eq_none env name s).mp hm
  | some p =>
    have : ¬ mkdir_succeeds env name s = false := fun hc => by
      rw [(make_dir_eq_none env name s).mpr hc] at hm
      cases hm
    simpa using this

theorem deleteOnException_fst {α : Type} (path : String) (body : Outcome α) :
    (DeleteOnException path body).1 = body.1 := by
  obtain ⟨r, s⟩ := body
  cases r <;> rfl

theorem diskOnly_deleteOnException {α : Type} (path : String) (body : Outcome α) :
    DiskOnly body.2 (DeleteOnException path body).2 := by
  obtain ⟨r, s⟩ := body
  cases r
  · exact diskOnly_delete_file path s
  · exact DiskOnly.refl s

theorem download_to_frame (env : Env) (url path : String) (s : State) :
    DiskOnly { s with download_calls := s.download_calls + 1 } (download_to env url path s).2 := by
  unfold download_to
  dsimp only
  split
  · exact diskOnly_write_file _ _
  · split
    · exact diskOnly_write_file _ _
    · exact DiskOnly.refl _

theorem diskOnly_write_files (paths : List String) (s : State) :
    DiskOnly s (paths.foldl (fun s f => write_file f s) s) := by
  induction paths generalizing s with
  | nil => exact DiskOnly.refl s
  | cons path rest ih => exact (diskOnly_write_file path s).trans (ih _)

theorem run_prepare_frame (prepare : PrepareAction) (source_image : VMImage) (s : State) :
    (run_prepare prepare source_image s).1 = prepare.run source_image ∧
    DiskOnly { s with prepare_calls := s.prepare_calls + 1 }
      (run_prepare prepare source_image s).2 := by
  unfold run_prepare
  exact ⟨rfl, diskOnly_write_files _ _⟩

theorem invalid_keys_frame (env : Env) (records : Records) (s : State) :
    ∃ n, (invalid_keys env records s).2 = { s with info_for_calls := s.info_for_calls + n } := by
  induction records generalizing s with
  | nil => exact ⟨0, rfl⟩
  | cons kr rest ih =>
    obtain ⟨key, record⟩ := kr
    simp only [invalid_keys, info_for]
    cases env.image_host record.query with
    | none => exact ⟨1, rfl⟩
    | some info =>
      dsimp only
      obtain ⟨n, hn⟩ := ih { s with info_for_calls := s.info_for_calls + 1 }
      rcases hr : invalid_keys env rest { s with info_for_calls := s.info_for_calls + 1 }
        with ⟨_ | keys, s2⟩
      · rw [hr] at hn
        exact ⟨1 + n, by simpa [Nat.add_assoc] using hn⟩
      · rw [hr] at hn
        exact ⟨1 + n, by simpa [Nat.add_assoc] using hn⟩

theorem expunge_frame (env : Env) (s : State) :
    ∃ (n : Nat) (keys : List String),
      (expunge_invalid_image_records env s).2
        = { s with
            info_for_calls := s.info_for_calls + n
            prepared_image_records :=
              if (expunge_invalid_image_records env s).1
              then keys.foldl (fun records key => map_erase key records) s.prepared_image_records
              else s.prepared_image_records } := by
  unfold expunge_invalid_image_records
  obtain ⟨n, hn⟩ := invalid_keys_frame env s.prepared_image_records s
  rcases hr : invalid_keys env s.prepared_image_records s with ⟨_ | keys, s2⟩
  · rw [hr] at hn
    exact ⟨n, [], by simpa using hn⟩
  · rw [hr] at hn
    dsimp only at hn ⊢
    subst hn
    exact ⟨n, keys, by simp⟩

/-! ### The miss path, block by block -/

theorem prepare_and_publish_ok (env : Env) (query : Query) (prepare : PrepareAction)
    (id : String) (source_image : VMImage) (s : State) (vm_image : VMImage) (s' : State)
    (h : prepare_and_publish env query prepare id source_image s = (.ok vm_image, s')) :
    ∃ (prepared_image : VMImage) (keys : List String),
      prepare.run source_image = some prepared_image ∧
      s'.prepared_image_records
        = keys.foldl (fun records key => map_erase key records)
            (map_assign id ⟨prepared_image, query⟩ s.prepared_image_records) ∧
      s'.instance_image_records
        = map_assign query.name ⟨vm_image, query⟩ s.instance_image_records ∧
      s'.image_db = some (records_to_json s'.prepared_image_records) ∧
      s'.instance_db = some (records_to_json s'.instance_image_records) ∧
      s'.download_calls = s.download_calls ∧
      s'.prepare_calls = s.prepare_calls + 1 := by
  unfold prepare_and_publish at h
  obtain ⟨hrun, hd1⟩ := run_prepare_frame prepare source_image s
  rcases hrp : run_prepare prepare source_image s with ⟨_ | prepared_image, s1⟩
  · rw [hrp] at h
    simp at h
  · rw [hrp] at h hrun hd1
    dsimp only at h hrun hd1
    generalize hi : image_instance_from _ _ _ _ = r at h
    rcases r with _ | ⟨vm, s2⟩
    · simp at h
    · obtain ⟨-, -, hd2⟩ := image_instance_from_some _ _ _ _ _ _ hi
      have hd3 := (diskOnly_remove_source_images source_image prepared_image _).trans hd2
      dsimp only at h
      obtain ⟨n, keys, hx⟩ := expunge_frame env
        { s2 with instance_image_records := map_assign query.name ⟨vm, query⟩ s2.instance_image_records }
      generalize he : expunge_invalid_image_records _ _ = r at h hx
      rcases r with ⟨_ | _, s3⟩
      · simp at h
      · simp only [Prod.mk.injEq, Except.ok.injEq] at h
        obtain ⟨h1, h2⟩ := h
        subst h1 h2
        dsimp only at hx
        subst hx
        have e0 := hd1.prepared
        have e1 := hd3.prepared
        have e2 := hd3.instances
        have e3 := hd1.instances
        have e4 := hd3.download_calls
        have e5 := hd1.download_calls
        have e6 := hd3.prepare_calls
        have e7 := hd1.prepare_calls
        dsimp only at e0 e1 e2 e3 e4 e5 e6 e7
        refine ⟨prepared_image, keys, hrun.symm, ?_, ?_, ?_, ?_, ?_, ?_⟩
        · simp [persist_instance_records, persist_image_records, write_json, e0, e1]
        · simp [persist_instance_records, persist_image_records, write_json, e2, e3]
        · simp [persist_instance_records, persist_image_records, write_json]
        · simp [persist_instance_records, persist_image_records, write_json]
        · simp [persist_instance_records, persist_image_records, write_json, e4, e5]
        · simp [persist_instance_records, persist_image_records, write_json, e6, e7]

theorem prepare_and_publish_error (env : Env) (query : Query) (prepare : PrepareAction)
    (id : String) (source_image : VMImage) (s : State) (e : FetchError) (s' : State)
    (h : prepare_and_publish env query prepare id source_image s = (.error e, s')) :
    s'.image_db = s.image_db ∧ s'.instance_db = s.instance_db ∧
    ((e = .prepare ∧ s'.prepared_image_records = s.prepared_image_records ∧
        s'.instance_image_records = s.instance_image_records) ∨
     (∃ prepared_image : VMImage,
        prepare.run source_image = some prepared_image ∧
        s'.prepared_image_records
          = map_assign id ⟨prepared_image, query⟩ s.prepared_image_records ∧
        ((e = .instance_dir_on_miss ∧ s'.instance_image_records = s.instance_image_records) ∨
         (e = .expunge ∧ ∃ vm_image : VMImage,
            s'.instance_image_records
              = map_assign query.name ⟨vm_image, query⟩ s.instance_image_records)))) := by
  unfold prepare_and_publish at h
  obtain ⟨hrun, hd1⟩ := run_prepare_frame prepare source_image s
  rcases hrp : run_prepare prepare source_image s with ⟨_ | prepared_image, s1⟩
  · rw [hrp] at h hd1
    simp only [Prod.mk.injEq, Except.error.injEq] at h
    obtain ⟨h1, h2⟩ := h
    subst h1 h2
    exact ⟨hd1.image_db, hd1.instance_db, Or.inl ⟨rfl, hd1.prepared, hd1.instances⟩⟩
  · rw [hrp] at h hrun hd1
    dsimp only at h hrun hd1
    have d0 := diskOnly_remove_source_images source_image prepared_image
      { s1 with prepared_image_records := map_assign id ⟨prepared_image, query⟩ s1.prepared_image_records }
    generalize hi : image_instance_from _ _ _ _ = r at h
    rcases r with _ | ⟨vm, s2⟩
    · simp only [Prod.mk.injEq, Except.error.injEq] at h
      obtain ⟨h1, h2⟩ := h
      subst h1 h2
      have e0 := hd1.prepared
      have e1 := d0.prepared
      have e2 := d0.instances
      have e3 := hd1.instances
      have e4 := d0.image_db
      have e5 := hd1.image_db
      have e6 := d0.instance_db
      have e7 := hd1.instance_db
      dsimp only at e0 e1 e2 e3 e4 e5 e6 e7
      refine ⟨e4.trans e5, e6.trans e7, Or.inr ⟨prepared_image, hrun.symm, ?_, Or.inl ⟨rfl, ?_⟩⟩⟩
      · rw [e1, e0]
      · rw [e2, e3]
    · obtain ⟨-, -, hd2⟩ := image_instance_from_some _ _ _ _ _ _ hi
      have hd3 := d0.trans hd2
      dsimp only at h
      obtain ⟨n, keys, hx⟩ := expunge_frame env
        { s2 with instance_image_records := map_assign query.name ⟨vm, query⟩ s2.instance_image_records }
      generalize he : expunge_invalid_image_records _ _ = r at h hx
      rcases r with ⟨_ | _, s3⟩
      · simp only [Prod.mk.injEq, Except.error.injEq] at h
        obtain ⟨h1, h2⟩ := h
        subst h1 h2
        dsimp only at hx
        subst hx
        have e0 := hd1.prepared
        have e1 := hd3.prepared
        have e2 := hd3.instances
        have e3 := hd1.instances
        have e4 := hd3.image_db
        have e5 := hd1.image_db
        have e6 := hd3.instance_db
        have e7 := hd1.instance_db
        dsimp only at e0 e1 e2 e3 e4 e5 e6 e7
        refine ⟨e4.trans e5, e6.trans e7,
          Or.inr ⟨prepared_image, hrun.symm, ?_, Or.inr ⟨rfl, vm, ?_⟩⟩⟩
        · simp [e0, e1]
        · simp [e2, e3]
      · simp at h

theorem diskOnly_guarded {α : Type} (path : String) (body : Outcome α) (s : State)
    (h : DiskOnly s body.2) : DiskOnly s (DeleteOnException path body).2 :=
  h.trans (diskOnly_deleteOnException path body)

theorem download_kernel_and_initrd_frame (env : Env) (info : VMImageInfo) (image_dir : String)
    (source_image : VMImage) (s : State) :
    (∃ n, DiskOnly { s with download_calls := s.download_calls + n }
        (download_kernel_and_initrd env info image_dir source_image s).2) ∧
    (∀ e, (download_kernel_and_initrd env info image_dir source_image s).1 = .error e →
        e = .download_kernel ∨ e = .download_initrd) ∧
    (∀ downloaded, (download_kernel_and_initrd env info image_dir source_image s).1
        = .ok downloaded → downloaded.id = source_image.id) := by
  unfold download_kernel_and_initrd
  dsimp only
  have f1 := download_to_frame env info.kernel_location
    (filePath image_dir (filename_for info.kernel_location)) s
  rcases h1 : download_to env info.kernel_location
    (filePath image_dir (filename_for info.kernel_location)) s with ⟨_ | _, s1⟩
  · rw [h1] at f1
    simp only [deleteOnException_fst]
    refine ⟨⟨1, ?_⟩, ?_, ?_⟩
    · apply diskOnly_guarded
      apply diskOnly_guarded
      exact f1
    · intro e he
      simp only [Except.error.injEq] at he
      exact Or.inl he.symm
    · intro d hd
      simp at hd
  · rw [h1] at f1
    dsimp only at f1 ⊢
    have f2 := download_to_frame env info.initrd_location
      (filePath image_dir (filename_for info.initrd_location)) s1
    have c1 := f1.download_calls
    dsimp only at c1
    rcases h2 : download_to env info.initrd_location
      (filePath image_dir (filename_for info.initrd_location)) s1 with ⟨_ | _, s2⟩
    · rw [h2] at f2
      simp only [deleteOnException_fst]
      refine ⟨⟨2, ?_⟩, ?_, ?_⟩
      · apply diskOnly_guarded
        apply diskOnly_guarded
        dsimp only
        exact ⟨f2.prepared.trans f1.prepared, f2.instances.trans f1.instances,
          f2.image_db.trans f1.image_db, f2.instance_db.trans f1.instance_db,
          f2.info_for_calls.trans f1.info_for_calls,
          by
            have := f2.download_calls
            dsimp only at this ⊢
            omega,
          f2.prepare_calls.trans f1.prepare_calls⟩
      · intro e he
        simp only [Except.error.injEq] at he
        exact Or.inr he.symm
      · intro d hd
        simp at hd
    · rw [h2] at f2
      simp only [deleteOnException_fst]
      refine ⟨⟨2, ?_⟩, ?_, ?_⟩
      · apply diskOnly_guarded
        apply diskOnly_guarded
        dsimp only
        exact ⟨f2.prepared.trans f1.prepared, f2.instances.trans f1.instances,
          f2.image_db.trans f1.image_db, f2.instance_db.trans f1.instance_db,
          f2.info_for_calls.trans f1.info_for_calls,
          by
            have := f2.download_calls
            dsimp only at this ⊢
            omega,
          f2.prepare_calls.trans f1.prepare_calls⟩
      · intro e he
        simp at he
      · intro d hd
        simp only [Except.ok.injEq] at hd
        subst hd
        rfl
theorem deleteOnException_eq {α : Type} (path : String) (body : Outcome α)
    (r : Except FetchError α) (s' : State) (h : DeleteOnException path body = (r, s')) :
    body.1 = r ∧ DiskOnly body.2 s' := by
  have h1 := deleteOnException_fst path body
  have h2 := diskOnly_deleteOnException path body
  rw [h] at h1 h2
  exact ⟨h1.symm, h2⟩

theorem download_stage_frame (env : Env) (fetch_type : FetchType) (info : VMImageInfo)
    (image_dir : String) (source_image : VMImage) (s : State) (downloaded : Outcome VMImage)
    (h : downloaded = if fetch_type = .ImageKernelAndInitrd
      then download_kernel_and_initrd env info image_dir source_image s
      else (.ok source_image, s)) :
    (∃ n, DiskOnly { s with download_calls := s.download_calls + n } downloaded.2 ∧
        (fetch_type = .ImageOnly → n = 0)) ∧
    (∀ e, downloaded.1 = .error e → e = .download_kernel ∨ e = .download_initrd) ∧
    (∀ d, downloaded.1 = .ok d → d.id = source_image.id) := by
  subst h
  by_cases hft : fetch_type = .ImageKernelAndInitrd
  · obtain ⟨⟨n, hn⟩, h2, h3⟩ := download_kernel_and_initrd_frame env info image_dir source_image s
    simp only [hft, if_true]
    refine ⟨⟨n, hn, ?_⟩, h2, h3⟩
    intro hc
    cases hc
  · simp only [hft, if_false]
    refine ⟨⟨0, DiskOnly.refl _, fun _ => rfl⟩, ?_, ?_⟩
    · intro e he
      cases he
    · intro d hd
      simp only [Except.ok.injEq] at hd
      subst hd
      rfl

theorem fetch_miss_ok (env : Env) (fetch_type : FetchType) (query : Query)
    (prepare : PrepareAction) (info : VMImageInfo) (s : State) (vm_image : VMImage) (s' : State)
    (h : fetch_miss env fetch_type query prepare info s = (.ok vm_image, s')) :
    ∃ (source_image prepared_image : VMImage) (keys : List String),
      source_image.id = info.id ∧
      prepare.run source_image = some prepared_image ∧
      s'.prepared_image_records
        = keys.foldl (fun records key => map_erase key records)
            (map_assign info.id ⟨prepared_image, query⟩ s.prepared_image_records) ∧
      s'.instance_image_records
        = map_assign query.name ⟨vm_image, query⟩ s.instance_image_records ∧
      s'.image_db = some (records_to_json s'.prepared_image_records) ∧
      s'.instance_db = some (records_to_json s'.instance_image_records) ∧
      s'.prepare_calls = s.prepare_calls + 1 ∧
      (fetch_type = .ImageOnly → s'.download_calls = s.download_calls + 1) := by
  unfold fetch_miss at h
  dsimp only at h
  cases hm : make_dir env (info.release ++ "-" ++ info.version) s with
  | none =>
    rw [hm] at h
    simp at h
  | some p =>
    obtain ⟨image_dir, s0⟩ := p
    obtain ⟨-, -, -, -, hd0⟩ := make_dir_some _ _ _ _ _ hm
    rw [hm] at h
    dsimp only at h
    obtain ⟨hb, hdb⟩ := deleteOnException_eq _ _ _ _ h
    clear h
    have f1 := download_to_frame env info.image_location
      (filePath image_dir (filename_for info.image_location)) s0
    rcases hdl : download_to env info.image_location
      (filePath image_dir (filename_for info.image_location)) s0 with ⟨_ | _, s1⟩
    · rw [hdl] at hb
      simp at hb
    · rw [hdl] at hb hdb f1
      dsimp only at hb hdb f1
      generalize hD : (if fetch_type = FetchType.ImageKernelAndInitrd then _ else _) = D at hb hdb
      obtain ⟨⟨n, hn, hn0⟩, -, hid⟩ := download_stage_frame _ _ _ _ _ _ D hD.symm
      rcases D with ⟨e | source_image, s2⟩
      · simp at hb
      · dsimp only at hb hdb hn
        have hid2 := hid source_image rfl
        dsimp only at hid2
        obtain ⟨prepared_image, keys, hrun, k1, k2, k3, k4, k5, k6⟩ :=
          prepare_and_publish_ok env query prepare info.id source_image s2 vm_image _
            (Prod.ext hb rfl)
        have a1 := hn.prepared
        have a2 := hn.instances
        have a3 := hn.prepare_calls
        have a4 := hn.download_calls
        have b1 := f1.prepared
        have b2 := f1.instances
        have b3 := f1.prepare_calls
        have b4 := f1.download_calls
        dsimp only at a1 a2 a3 a4 b1 b2 b3 b4
        refine ⟨source_image, prepared_image, keys, hid2, hrun, ?_, ?_, ?_, ?_, ?_, ?_⟩
        · rw [hdb.prepared, k1, a1, b1, hd0.prepared]
        · rw [hdb.instances, k2, a2, b2, hd0.instances]
        · rw [hdb.image_db, hdb.prepared, k3]
        · rw [hdb.instance_db, hdb.instances, k4]
        · rw [hdb.prepare_calls, k6, a3, b3, hd0.prepare_calls]
        · intro hft
          have := hn0 hft
          subst this
          rw [hdb.download_calls, k5, a4, b4, hd0.download_calls]

theorem fetch_miss_error (env : Env) (fetch_type : FetchType) (query : Query)
    (prepare : PrepareAction) (info : VMImageInfo) (s : State) (e : FetchError) (s' : State)
    (h : fetch_miss env fetch_type query prepare info s = (.error e, s')) :
    s'.image_db = s.image_db ∧ s'.instance_db = s.instance_db ∧
    ((s'.prepared_image_records = s.prepared_image_records ∧
        s'.instance_image_records = s.instance_image_records) ∨
     (∃ source_image prepared_image : VMImage,
        source_image.id = info.id ∧
        prepare.run source_image = some prepared_image ∧
        s'.prepared_image_records
          = map_assign info.id ⟨prepared_image, query⟩ s.prepared_image_records ∧
        ((e = .instance_dir_on_miss ∧ s'.instance_image_records = s.instance_image_records) ∨
         (e = .expunge ∧ ∃ vm_image : VMImage,
            s'.instance_image_records
              = map_assign query.name ⟨vm_image, query⟩ s.instance_image_records)))) := by
  unfold fetch_miss at h
  dsimp only at h
  cases hm : make_dir env (info.release ++ "-" ++ info.version) s with
  | none =>
    rw [hm] at h
    simp only [Prod.mk.injEq, Except.error.injEq] at h
    obtain ⟨-, h2⟩ := h
    subst h2
    exact ⟨rfl, rfl, Or.inl ⟨rfl, rfl⟩⟩
  | some p =>
    obtain ⟨image_dir, s0⟩ := p
    obtain ⟨-, -, -, -, hd0⟩ := make_dir_some _ _ _ _ _ hm
    rw [hm] at h
    dsimp only at h
    obtain ⟨hb, hdb⟩ := deleteOnException_eq _ _ _ _ h
    clear h
    have f1 := download_to_frame env info.image_location
      (filePath image_dir (filename_for info.image_location)) s0
    have b1 := f1.prepared
    have b2 := f1.instances
    have b3 := f1.image_db
    have b4 := f1.instance_db
    dsimp only at b1 b2 b3 b4
    rcases hdl : download_to env info.image_location
      (filePath image_dir (filename_for info.image_location)) s0 with ⟨_ | _, s1⟩
    · rw [hdl] at hb hdb b1 b2 b3 b4
      dsimp only at hb hdb b1 b2 b3 b4
      refine ⟨?_, ?_, Or.inl ⟨?_, ?_⟩⟩
      · rw [hdb.image_db, b3, hd0.image_db]
      · rw [hdb.instance_db, b4, hd0.instance_db]
      · rw [hdb.prepared, b1, hd0.prepared]
      · rw [hdb.instances, b2, hd0.instances]
    · rw [hdl] at hb hdb b1 b2 b3 b4
      dsimp only at hb hdb b1 b2 b3 b4
      generalize hD : (if fetch_type = FetchType.ImageKernelAndInitrd then _ else _) = D at hb hdb
      obtain ⟨⟨n, hn, -⟩, -, hid⟩ := download_stage_frame _ _ _ _ _ _ D hD.symm
      have a1 := hn.prepared
      have a2 := hn.instances
      have a3 := hn.image_db
      have a4 := hn.instance_db
      dsimp only at a1 a2 a3 a4
      rcases D with ⟨e2 | source_image, s2⟩
      · dsimp only at hb hdb a1 a2 a3 a4
        refine ⟨?_, ?_, Or.inl ⟨?_, ?_⟩⟩
        · rw [hdb.image_db, a3, b3, hd0.image_db]
        · rw [hdb.instance_db, a4, b4, hd0.instance_db]
        · rw [hdb.prepared, a1, b1, hd0.prepared]
        · rw [hdb.instances, a2, b2, hd0.instances]
      · dsimp only at hb hdb a1 a2 a3 a4
        have hid2 := hid source_image rfl
        dsimp only at hid2
        obtain ⟨j1, j2, hcase⟩ :=
          prepare_and_publish_error env query prepare info.id source_image s2 e _
            (Prod.ext hb rfl)
        refine ⟨?_, ?_, ?_⟩
        · rw [hdb.image_db, j1, a3, b3, hd0.image_db]
        · rw [hdb.instance_db, j2, a4, b4, hd0.instance_db]
        · rcases hcase with ⟨-, k1, k2⟩ | ⟨prepared_image, hrun, k1, hrest⟩
          · left
            refine ⟨?_, ?_⟩
            · rw [hdb.prepared, k1, a1, b1, hd0.prepared]
            · rw [hdb.instances, k2, a2, b2, hd0.instances]
          · right
            refine ⟨source_image, prepared_image, hid2, hrun, ?_, ?_⟩
            · rw [hdb.prepared, k1, a1, b1, hd0.prepared]
            · rcases hrest with ⟨he, k2⟩ | ⟨he, vm, k2⟩
              · left
                refine ⟨he, ?_⟩
                rw [hdb.instances, k2, a2, b2, hd0.instances]
              · right
                refine ⟨he, vm, ?_⟩
                rw [hdb.instances, k2, a2, b2, hd0.instances]
/-! ### The three paths of `fetch_image` -/

theorem fetch_hit_ok (env : Env) (query : Query) (record : VaultRecord) (s : State)
    (vm_image : VMImage) (s' : State)
    (h : fetch_hit env query record s = (.ok vm_image, s')) :
    mkdir_succeeds env query.name s = true ∧
    vm_image = ⟨instance_path env.cache_dir query.name record.image.image_path,
                instance_path env.cache_dir query.name record.image.kernel_path,
                instance_path env.cache_dir query.name record.image.initrd_path,
                record.image.id⟩ ∧
    s'.prepared_image_records = s.prepared_image_records ∧
    s'.instance_image_records
      = map_assign query.name ⟨vm_image, query⟩ s.instance_image_records ∧
    s'.image_db = s.image_db ∧
    s'.instance_db = some (records_to_json s'.instance_image_records) ∧
    s'.info_for_calls = s.info_for_calls ∧
    s'.download_calls = s.download_calls ∧
    s'.prepare_calls = s.prepare_calls := by
  unfold fetch_hit at h
  dsimp only at h
  generalize hi : image_instance_from _ _ _ _ = r at h
  rcases r with _ | ⟨vm, s2⟩
  · simp at h
  · obtain ⟨hn, hvm, hd⟩ := image_instance_from_some _ _ _ _ _ _ hi
    simp only [Prod.mk.injEq, Except.ok.injEq] at h
    obtain ⟨h1, h2⟩ := h
    subst h1 h2
    refine ⟨hn, hvm, ?_, ?_, ?_, ?_, ?_, ?_, ?_⟩
    · simp [persist_instance_records, write_json, hd.prepared]
    · simp [persist_instance_records, write_json, hd.instances]
    · simp [persist_instance_records, write_json, hd.image_db]
    · simp [persist_instance_records, write_json]
    · simp [persist_instance_records, write_json, hd.info_for_calls]
    · simp [persist_instance_records, write_json, hd.download_calls]
    · simp [persist_instance_records, write_json, hd.prepare_calls]

theorem fetch_hit_error (env : Env) (query : Query) (record : VaultRecord) (s : State)
    (e : FetchError) (s' : State)
    (h : fetch_hit env query record s = (.error e, s')) :
    e = .instance_dir_on_hit ∧ s' = s ∧ mkdir_succeeds env query.name s = false := by
  unfold fetch_hit at h
  dsimp only at h
  generalize hi : image_instance_from _ _ _ _ = r at h
  rcases r with _ | ⟨vm, s2⟩
  · simp only [Prod.mk.injEq, Except.error.injEq] at h
    exact ⟨h.1.symm, h.2.symm, (image_instance_from_eq_none _ _ _ _).mp hi⟩
  · simp at h

/-- The three ways in which `fetch_image` returns an artifact. -/
theorem fetch_image_ok (env : Env) (fetch_type : FetchType) (query : Query)
    (prepare : PrepareAction) (s : State) (vm_image : VMImage) (s' : State)
    (h : fetch_image env fetch_type query prepare s = (.ok vm_image, s')) :
    (∃ record, map_find s.instance_image_records query.name = some record ∧
        vm_image = record.image ∧ s' = s) ∨
    (map_find s.instance_image_records query.name = none ∧
      ∃ info record, env.image_host query = some info ∧
        map_find s.prepared_image_records info.id = some record ∧
        s'.prepared_image_records = s.prepared_image_records ∧
        s'.instance_image_records
          = map_assign query.name ⟨vm_image, query⟩ s.instance_image_records ∧
        s'.image_db = s.image_db ∧
        s'.instance_db = some (records_to_json s'.instance_image_records)) ∨
    (map_find s.instance_image_records query.name = none ∧
      ∃ (info : VMImageInfo) (source_image prepared_image : VMImage) (keys : List String),
        env.image_host query = some info ∧
        map_find s.prepared_image_records info.id = none ∧
        source_image.id = info.id ∧
        prepare.run source_image = some prepared_image ∧
        s'.prepared_image_records
          = keys.foldl (fun records key => map_erase key records)
              (map_assign info.id ⟨prepared_image, query⟩ s.prepared_image_records) ∧
        s'.instance_image_records
          = map_assign query.name ⟨vm_image, query⟩ s.instance_image_records ∧
        s'.image_db = some (records_to_json s'.prepared_image_records) ∧
        s'.instance_db = some (records_to_json s'.instance_image_records) ∧
        s'.prepare_calls = s.prepare_calls + 1 ∧
        (fetch_type = .ImageOnly → s'.download_calls = s.download_calls + 1)) := by
  unfold fetch_image at h
  cases hfind : map_find s.instance_image_records query.name with
  | some record =>
    rw [hfind] at h
    simp only [Prod.mk.injEq, Except.ok.injEq] at h
    exact Or.inl ⟨record, rfl, h.1.symm, h.2.symm⟩
  | none =>
    rw [hfind] at h
    simp only [info_for] at h
    cases hinfo : env.image_host query with
    | none =>
      rw [hinfo] at h
      simp at h
    | some info =>
      rw [hinfo] at h
      dsimp only at h
      cases hprep : map_find s.prepared_image_records info.id with
      | some record =>
        rw [hprep] at h
        obtain ⟨-, -, k1, k2, k3, k4, -⟩ := fetch_hit_ok _ _ _ _ _ _ h
        exact Or.inr (Or.inl ⟨rfl, info, record, rfl, hprep, k1, k2, k3, k4⟩)
      | none =>
        rw [hprep] at h
        obtain ⟨src, img, keys, k1, k2, k3, k4, k5, k6, k7, k8⟩ := fetch_miss_ok _ _ _ _ _ _ _ _ h
        exact Or.inr (Or.inr ⟨rfl, info, src, img, keys, rfl, hprep, k1, k2, k3, k4, k5, k6,
          k7, k8⟩)

/-- What a failed `fetch_image` leaves: the journals as they were, and the tables either
as they were or with the records inserted before the failing statement. -/
theorem fetch_image_error (env : Env) (fetch_type : FetchType) (query : Query)
    (prepare : PrepareAction) (s : State) (e : FetchError) (s' : State)
    (h : fetch_image env fetch_type query prepare s = (.error e, s')) :
    s'.image_db = s.image_db ∧ s'.instance_db = s.instance_db ∧
    ((s'.prepared_image_records = s.prepared_image_records ∧
        s'.instance_image_records = s.instance_image_records) ∨
     (∃ (info : VMImageInfo) (source_image prepared_image : VMImage),
        source_image.id = info.id ∧
        prepare.run source_image = some prepared_image ∧
        s'.prepared_image_records
          = map_assign info.id ⟨prepared_image, query⟩ s.prepared_image_records ∧
        ((e = .instance_dir_on_miss ∧ s'.instance_image_records = s.instance_image_records) ∨
         (e = .expunge ∧ ∃ vm_image : VMImage,
            s'.instance_image_records
              = map_assign query.name ⟨vm_image, query⟩ s.instance_image_records)))) := by
  unfold fetch_image at h
  cases hfind : map_find s.instance_image_records query.name with
  | some record =>
    rw [hfind] at h
    simp at h
  | none =>
    rw [hfind] at h
    simp only [info_for] at h
    cases hinfo : env.image_host query with
    | none =>
      rw [hinfo] at h
      simp only [Prod.mk.injEq, Except.error.injEq] at h
      obtain ⟨-, h2⟩ := h
      subst h2
      exact ⟨rfl, rfl, Or.inl ⟨rfl, rfl⟩⟩
    | some info =>
      rw [hinfo] at h
      dsimp only at h
      cases hprep : map_find s.prepared_image_records info.id with
      | some record =>
        rw [hprep] at h
        obtain ⟨-, h2, -⟩ := fetch_hit_error _ _ _ _ _ _ h
        subst h2
        exact ⟨rfl, rfl, Or.inl ⟨rfl, rfl⟩⟩
      | none =>
        rw [hprep] at h
        obtain ⟨j1, j2, hcase⟩ := fetch_miss_error _ _ _ _ _ _ _ _ h
        refine ⟨j1, j2, ?_⟩
        rcases hcase with hsame | ⟨src, img, k1, k2, k3, k4⟩
        · exact Or.inl hsame
        · exact Or.inr ⟨info, src, img, k1, k2, k3, k4⟩
/-! ### `remove`, and the invariants along a run -/

theorem remove_spec (env : Env) (name : String) (s : State) :
    (remove env name s).prepared_image_records = s.prepared_image_records ∧
    (remove env name s).image_db = s.image_db ∧
    ((map_find s.instance_image_records name = none ∧ remove env name s = s) ∨
     ((remove env name s).instance_image_records = map_erase name s.instance_image_records ∧
      (remove env name s).instance_db
        = some (records_to_json (map_erase name s.instance_image_records)))) := by
  unfold remove
  cases hfind : map_find s.instance_image_records name with
  | none => exact ⟨rfl, rfl, Or.inl ⟨rfl, rfl⟩⟩
  | some record =>
    have hd := (((diskOnly_delete_file record.image.image_path s).trans
      (diskOnly_delete_file record.image.kernel_path _)).trans
      (diskOnly_delete_file record.image.initrd_path _)).trans
      (diskOnly_rmdir env.cache_dir name _)
    dsimp only
    refine ⟨?_, ?_, Or.inr ⟨?_, ?_⟩⟩
    · simp [persist_instance_records, write_json, hd.prepared]
    · simp [persist_instance_records, write_json, hd.image_db]
    · simp [persist_instance_records, write_json, hd.instances]
    · simp [persist_instance_records, write_json, hd.instances]

/-- After any call of `fetch_image`, a record of the prepared table was there before or
holds what the hook returned for a source artifact with the key as id. -/
theorem fetch_image_prepared_members (env : Env) (fetch_type : FetchType) (query : Query)
    (prepare : PrepareAction) (s : State) (kr : String × VaultRecord)
    (h : kr ∈ (fetch_image env fetch_type query prepare s).2.prepared_image_records) :
    kr ∈ s.prepared_image_records ∨
    ∃ source_image, source_image.id = kr.1 ∧ prepare.run source_image = some kr.2.image := by
  rcases hr : fetch_image env fetch_type query prepare s with ⟨e | vm_image, s'⟩
  · rw [hr] at h
    obtain ⟨-, -, hcase⟩ := fetch_image_error _ _ _ _ _ _ _ hr
    rcases hcase with ⟨hp, -⟩ | ⟨info, src, img, hid, hrun, hp, -⟩
    · exact Or.inl (hp ▸ h)
    · dsimp only at h
      rw [hp] at h
      rcases mem_map_assign _ _ _ _ h with heq | hin
      · subst heq
        exact Or.inr ⟨src, hid, hrun⟩
      · exact Or.inl hin
  · rw [hr] at h
    rcases fetch_image_ok _ _ _ _ _ _ _ hr with
      ⟨_, -, -, hs⟩ | ⟨-, _, _, -, -, hp, -⟩ |
      ⟨-, info, src, img, keys, -, -, hid, hrun, hp, -⟩
    · subst hs
      exact Or.inl h
    · exact Or.inl (hp ▸ h)
    · dsimp only at h
      rw [hp] at h
      rcases mem_map_assign _ _ _ _ (mem_map_erase_all _ _ _ h) with heq | hin
      · subst heq
        exact Or.inr ⟨src, hid, hrun⟩
      · exact Or.inl hin

theorem reachable_prepared_ids (s : State) (h : Reachable empty_tables hook_keeps_id s) :
    ∀ kr ∈ s.prepared_image_records, kr.2.image.id = kr.1 := by
  induction h with
  | start s hs =>
    intro kr hkr
    rw [hs.1] at hkr
    cases hkr
  | after_fetch env fetch_type query prepare s _ hallowed ih =>
    intro kr hkr
    rcases fetch_image_prepared_members _ _ _ _ _ kr hkr with hin | ⟨src, hid, hrun⟩
    · exact ih kr hin
    · rw [hallowed src kr.2.image hrun, hid]
  | after_remove env name s _ ih =>
    intro kr hkr
    rw [(remove_spec env name s).1] at hkr
    exact ih kr hkr

/-- C1, as stated, fails: on a cache directory that already holds a directory named
like the instance, `fetch_image` throws at the creation of the instance directory
(line 244), after the prepared record was inserted (line 241); the prepared table after
the call differs from the one before. -/
theorem fetch_image_failure_changes_prepared_table :
    (fetch_image healthy .ImageOnly (query_18_04 "inst0") identity_prepare occupied_cache).1
      = .error .instance_dir_on_miss ∧
    occupied_cache.prepared_image_records = [] ∧
    (fetch_image healthy .ImageOnly (query_18_04 "inst0") identity_prepare
        occupied_cache).2.prepared_image_records
      = [("abc123", ⟨⟨"/cache/18.04-1/img.img", "", "", "abc123"⟩, query_18_04 "inst0"⟩)] :=
  ⟨rfl, rfl, rfl⟩

/-- C1, amended. When `fetch_image` throws at any statement other than the creation of
the instance directory on the miss path (line 244) and the invalidation (line 247),
that is at catalog resolution, at the creation of the image directory, at a download,
in the prepare hook, or at the creation of the instance directory on the prepared-hit
path, both in-memory tables are the ones before the call. -/
theorem fetch_image_failure_keeps_tables (env : Env) (fetch_type : FetchType) (query : Query)
    (prepare : PrepareAction) (s : State) (e : FetchError) (s' : State)
    (h : fetch_image env fetch_type query prepare s = (.error e, s'))
    (h_dir : e ≠ .instance_dir_on_miss) (h_expunge : e ≠ .expunge) :
    s'.prepared_image_records = s.prepared_image_records ∧
    s'.instance_image_records = s.instance_image_records := by
  obtain ⟨-, -, hcase⟩ := fetch_image_error _ _ _ _ _ _ _ h
  rcases hcase with hsame | ⟨_, _, _, -, -, -, ⟨he, -⟩ | ⟨he, -⟩⟩
  · exact hsame
  · exact absurd he h_dir
  · exact absurd he h_expunge

theorem fetch_image_failure_keeps_tables_witness :
    fetch_image broken_download .ImageOnly (query_18_04 "inst0") identity_prepare cold_cache
      = (.error .download_image, after_failed_download) ∧
    FetchError.download_image ≠ .instance_dir_on_miss ∧
    FetchError.download_image ≠ .expunge ∧
    after_failed_download.prepared_image_records = cold_cache.prepared_image_records ∧
    after_failed_download.instance_image_records = cold_cache.instance_image_records :=
  ⟨rfl, by decide, by decide,
   fetch_image_failure_keeps_tables broken_download .ImageOnly (query_18_04 "inst0")
     identity_prepare cold_cache .download_image after_failed_download rfl (by decide)
     (by decide)⟩

/-- C2, as stated, fails: after one fetch on a cold cache with a hook that returns its
argument under the id `zzz`, the prepared table holds under the key `abc123` a record
whose artifact has the id `zzz`. -/
theorem restamping_hook_breaks_prepared_ids :
    Reachable empty_tables any_call
      (fetch_image healthy .ImageOnly (query_18_04 "inst0") restamping_prepare cold_cache).2 ∧
    ∃ record,
      map_find (fetch_image healthy .ImageOnly (query_18_04 "inst0") restamping_prepare
        cold_cache).2.prepared_image_records "abc123" = some record ∧
      record.image.id = "zzz" ∧ record.image.id ≠ "abc123" :=
  ⟨Reachable.after_fetch healthy .ImageOnly (query_18_04 "inst0") restamping_prepare cold_cache
     (Reachable.start cold_cache ⟨rfl, rfl⟩) trivial,
   ⟨⟨"/cache/18.04-1/img.img", "", "", "zzz"⟩, query_18_04 "inst0"⟩, rfl, rfl, by decide⟩

/-- C2, amended. In every state reached from a vault with empty tables by calls of
`fetch_image` and `remove` whose prepare hooks return an artifact with the id of the
source artifact they were given, every key of the prepared table is the id of the
artifact recorded under it. -/
theorem prepared_ids_match_keys (s : State) (h : Reachable empty_tables hook_keeps_id s)
    (key : String) (record : VaultRecord)
    (h_find : map_find s.prepared_image_records key = some record) :
    record.image.id = key :=
  reachable_prepared_ids s h (key, record) (map_find_some_mem _ _ _ h_find)

theorem prepared_ids_match_keys_witness :
    Reachable empty_tables hook_keeps_id
      (fetch_image healthy .ImageOnly (query_18_04 "inst0") identity_prepare cold_cache).2 ∧
    map_find (fetch_image healthy .ImageOnly (query_18_04 "inst0") identity_prepare
        cold_cache).2.prepared_image_records "abc123"
      = some ⟨⟨"/cache/18.04-1/img.img", "", "", "abc123"⟩, query_18_04 "inst0"⟩ ∧
    (⟨⟨"/cache/18.04-1/img.img", "", "", "abc123"⟩, query_18_04 "inst0"⟩ : VaultRecord).image.id
      = "abc123" :=
  have hreach : Reachable empty_tables hook_keeps_id
      (fetch_image healthy .ImageOnly (query_18_04 "inst0") identity_prepare cold_cache).2 :=
    Reachable.after_fetch healthy .ImageOnly (query_18_04 "inst0") identity_prepare cold_cache
      (Reachable.start cold_cache ⟨rfl, rfl⟩)
      (fun _ _ hrun => (Option.some.inj hrun) ▸ rfl)
  ⟨hreach, rfl, prepared_ids_match_keys _ hreach "abc123" _ rfl⟩

/-- C4, on the code: on a cold cache a fetch whose download fails leaves no file but
leaves the image directory `18.04-1`; the next call with the same arguments and a
downloader that works throws at the creation of that directory (line 221). -/
theorem retry_after_failed_download_throws :
    fetch_image broken_download .ImageOnly (query_18_04 "inst0") identity_prepare cold_cache
      = (.error .download_image, after_failed_download) ∧
    after_failed_download.files = [] ∧
    after_failed_download.dirs = ["18.04-1"] ∧
    (fetch_image healthy .ImageOnly (query_18_04 "inst0") identity_prepare
      after_failed_download).1 = .error .image_dir ∧
    (fetch_image healthy .ImageOnly (query_18_04 "inst0") identity_prepare
      after_failed_download).2.prepared_image_records = [] ∧
    (fetch_image healthy .ImageOnly (query_18_04 "inst0") identity_prepare
      after_failed_download).2.instance_image_records = [] :=
  ⟨rfl, rfl, rfl, rfl, rfl, rfl⟩

/-- C5, on the code: with fetch type `ImageKernelAndInitrd`, three downloads that
succeed and a prepare hook that throws, the image file is removed by its guard, while
the kernel and initrd files, whose guards ended with the block of lines 231-238,
remain on disk. -/
theorem failed_prepare_leaves_kernel_and_initrd :
    (fetch_image healthy .ImageKernelAndInitrd (query_18_04 "inst0") failing_prepare
      cold_cache).1 = .error .prepare ∧
    (fetch_image healthy .ImageKernelAndInitrd (query_18_04 "inst0") failing_prepare
      cold_cache).2.download_calls = 3 ∧
    (fetch_image healthy .ImageKernelAndInitrd (query_18_04 "inst0") failing_prepare
      cold_cache).2.files = ["/cache/18.04-1/initrd.img", "/cache/18.04-1/vmlinuz"] :=
  ⟨rfl, rfl, rfl⟩

/-- C6. When the instance table has a record under the name of the query, `fetch_image`
returns the artifact of that record and leaves the whole state as it was: both tables,
both journals, the files and directories, and the counts of calls to the catalog, the
downloader and the prepare hook. -/
theorem fetch_image_instance_hit (env : Env) (fetch_type : FetchType) (query : Query)
    (prepare : PrepareAction) (s : State) (record : VaultRecord)
    (h : map_find s.instance_image_records query.name = some record) :
    fetch_image env fetch_type query prepare s = (.ok record.image, s) := by
  simp [fetch_image, h]

theorem fetch_image_instance_hit_witness :
    map_find after_failed_fetch.instance_image_records (query_18_04 "inst0").name
      = some ⟨⟨"/cache/inst0/img.img", "", "", "abc123"⟩, query_18_04 "inst0"⟩ ∧
    fetch_image healthy .ImageOnly (query_18_04 "inst0") identity_prepare after_failed_fetch
      = (.ok ⟨"/cache/inst0/img.img", "", "", "abc123"⟩, after_failed_fetch) :=
  ⟨rfl, fetch_image_instance_hit healthy .ImageOnly (query_18_04 "inst0") identity_prepare
    after_failed_fetch _ rfl⟩

/-! ### Plain names and ordinary paths -/

theorem split_path_of_no_slash (current rest : List Char) (h : '/' ∉ rest) :
    split_path current rest = [current ++ rest] := by
  induction rest generalizing current with
  | nil => simp [split_path]
  | cons c cs ih =>
    have hc : c ≠ '/' := fun e => h (by simp [e])
    have hcs : '/' ∉ cs := fun e => h (List.mem_cons_of_mem _ e)
    simp [split_path, hc, ih _ hcs]

theorem fileNameAux_no_slash (acc rest : List Char) (h : '/' ∉ acc) :
    '/' ∉ fileNameAux acc rest := by
  induction rest generalizing acc with
  | nil => simpa [fileNameAux] using h
  | cons c cs ih =>
    by_cases hc : c = '/'
    · simp only [fileNameAux, hc, if_true]
      exact ih [] (by simp)
    · simp only [fileNameAux, hc, if_false]
      apply ih
      simp only [List.mem_append, List.mem_singleton, not_or]
      exact ⟨h, fun e => hc e.symm⟩

theorem plain_name_data (name : String) (h : plain_name name) :
    name.data ≠ [] ∧ name.data ≠ ['.'] ∧ name.data ≠ ['.', '.'] ∧ '/' ∉ name.data ∧
      name.data.head? ≠ some '/' ∧ name.data.head? ≠ some ':' := by
  obtain ⟨h1, h2, h3, h4, h5⟩ := h
  refine ⟨?_, ?_, ?_, h2, ?_, h5⟩
  · intro e
    exact h1 (String.ext e)
  · intro e
    exact h3 (String.ext e)
  · intro e
    exact h4 (String.ext e)
  · intro e
    exact h2 (List.mem_of_mem_head? e)

theorem is_absolute_of_plain_name (name : String) (h : plain_name name) :
    is_absolute name = false := by
  obtain ⟨-, -, -, -, h5, h6⟩ := plain_name_data name h
  simp [is_absolute, h5, h6]

theorem cleanPath_of_plain_name (name : String) (h : plain_name name) :
    cleanPath name = name := by
  obtain ⟨h1, h2, h3, h4, h5, -⟩ := plain_name_data name h
  have hne : name ≠ "" := h.1
  have hbody : (⟨name.data⟩ : String) = name := rfl
  have hbody2 : ¬ (⟨name.data⟩ : String) = "" := by
    rw [hbody]
    exact hne
  simp [cleanPath, split_path_of_no_slash [] name.data h4, push_segment, h1, h2, h3, h5,
    join_path, hne, hbody2]

theorem parent_of_plain_name (name : String) (h : plain_name name) : parent_of name = none := by
  obtain ⟨-, -, -, h4, -, -⟩ := plain_name_data name h
  simp [parent_of, split_path_of_no_slash [] name.data h4]
theorem ordinary_cache_dir_data (cache_dir : String) (h : ordinary_cache_dir cache_dir) :
    cache_dir ≠ "" ∧ cache_dir ≠ "." ∧ cache_dir ≠ "/" ∧ ends_with_slash cache_dir = false := by
  obtain ⟨h1, h2, h3, -⟩ := h
  refine ⟨h1, h2, ?_, h3⟩
  intro e
  rw [e] at h3
  exact absurd h3 (by decide)

theorem filePath_of_plain_name (cache_dir name : String) (hc : ordinary_cache_dir cache_dir)
    (hn : plain_name name) : filePath cache_dir name = cache_dir ++ "/" ++ name := by
  obtain ⟨h1, -, -, h4⟩ := ordinary_cache_dir_data cache_dir hc
  simp [filePath, is_absolute_of_plain_name name hn, hn.1, h1, h4]

theorem cd_of_plain_name (cache_dir name : String) (hc : ordinary_cache_dir cache_dir)
    (hn : plain_name name) : cd cache_dir name = cache_dir ++ "/" ++ name := by
  obtain ⟨-, h2, h3, -⟩ := ordinary_cache_dir_data cache_dir hc
  obtain ⟨n1, n2, n3, n4, n5⟩ := hn
  simp [cd, is_absolute_of_plain_name name ⟨n1, n2, n3, n4, n5⟩, n1, n2, n3, n4, h2, h3]

theorem ends_with_slash_of_plain_name (cache_dir name : String) (hn : plain_name name) :
    ends_with_slash (cache_dir ++ "/" ++ name) = false := by
  obtain ⟨h1, -, -, h4, -, -⟩ := plain_name_data name hn
  have hrev : name.data.reverse ≠ [] := by simpa using h1
  obtain ⟨c, rest, hcr⟩ := List.exists_cons_of_ne_nil hrev
  have hmem : c ∈ name.data := by
    have : c ∈ name.data.reverse := by
      rw [hcr]
      exact List.mem_cons_self _ _
    simpa using this
  have hne : c ≠ '/' := fun e => h4 (e ▸ hmem)
  simp [ends_with_slash, String.data_append, hcr, hne]

theorem mkdir_succeeds_of_plain_name (env : Env) (name : String) (s : State)
    (hc : ordinary_cache_dir env.cache_dir) (hn : plain_name name)
    (h_dir : name ∉ s.dirs) (h_file : env.cache_dir ++ "/" ++ name ∉ s.files)
    (h_journal : name ≠ instance_db_name ∧ name ≠ image_db_name)
    (h_fs : env.mkdir_refused name = false) :
    mkdir_succeeds env name s = true := by
  have h1 := cleanPath_of_plain_name name hn
  have h2 := parent_of_plain_name name hn
  have h3 := filePath_of_plain_name env.cache_dir name hc hn
  simp [mkdir_succeeds, h1, h2, h3, hn.1, hn.2.2.1, hn.2.2.2.1, h_dir, h_file, h_journal.1,
    h_journal.2, h_fs]

theorem instance_path_of_ordinary (cache_dir name path : String)
    (hc : ordinary_cache_dir cache_dir) (hn : plain_name name) (hp : path ≠ "")
    (hb : has_ordinary_basename path) :
    instance_path cache_dir name path = cache_dir ++ "/" ++ name ++ "/" ++ filename_for path := by
  obtain ⟨hb1, hb2⟩ := hb
  have hslash : '/' ∉ (filename_for path).data := by
    simpa [filename_for] using fileNameAux_no_slash [] path.data (by simp)
  have hhead : (filename_for path).data.head? ≠ some '/' :=
    fun e => hslash (List.mem_of_mem_head? e)
  have habs : is_absolute (filename_for path) = false := by
    simp [is_absolute, hhead, hb2]
  have hdir : ¬ (cache_dir ++ "/" ++ name) = "" := by
    intro e
    have := congrArg String.length e
    simp at this
    exact absurd this.1.2 (by decide)
  simp [instance_path, hp, cd_of_plain_name cache_dir name hc hn, filePath, habs, hb1,
    ends_with_slash_of_plain_name cache_dir name hn, hdir]

/-- C7, as stated, fails.  After the cold fetch, three instance names that are in no
table and denote no directory of the cache make the prepared-hit path throw at the
creation of the instance directory (line 274, `make_dir` at line 155): the name of the
prepared journal file, which a regular file holds; a name whose parent directory is
missing; the empty name.  And when the prepared path ends with a slash, its basename is
empty and the returned path is the instance directory itself, without the final slash
of `<cache>/<name>/<basename>`. -/
theorem prepared_hit_throws_on_unusable_name :
    map_find after_cold_fetch.instance_image_records image_db_name = none ∧
    healthy.image_host (query_18_04 image_db_name) = some info_18_04 ∧
    map_find after_cold_fetch.prepared_image_records info_18_04.id
      = some ⟨⟨"/cache/18.04-1/img.img", "", "", "abc123"⟩, query_18_04 "inst0"⟩ ∧
    after_cold_fetch.dirs = ["inst0", "18.04-1"] ∧
    (fetch_image healthy .ImageOnly (query_18_04 image_db_name) identity_prepare
      after_cold_fetch).1 = .error .instance_dir_on_hit ∧
    (fetch_image healthy .ImageOnly (query_18_04 "a/b") identity_prepare
      after_cold_fetch).1 = .error .instance_dir_on_hit ∧
    (fetch_image healthy .ImageOnly (query_18_04 "") identity_prepare
      after_cold_fetch).1 = .error .instance_dir_on_hit ∧
    map_find after_slash_fetch.prepared_image_records "abc123"
      = some ⟨⟨"/cache/18.04-1/", "", "", "abc123"⟩, query_18_04 "inst0"⟩ ∧
    (fetch_image healthy .ImageOnly (query_18_04 "inst1") identity_prepare
      after_slash_fetch).1 = .ok ⟨"/cache/inst1", "", "", "abc123"⟩ :=
  ⟨rfl, rfl, rfl, rfl, rfl, rfl, rfl, rfl, rfl⟩

/-- C7, amended.  When the name of the query is not in the instance table, the catalog
resolves the query to an id that has a prepared record, and the instance directory can
be created (the cache path is a clean one, not empty, not `.` and without trailing
slash; the name is plain: not empty, without slash, not `.`, `..` or a resource name,
and not the name of a journal file; no directory and no regular file of that name
exists under the cache root; the file system does not refuse otherwise),
`fetch_image` returns an artifact with the id of the prepared artifact whose paths are
those of `image_instance_from`: empty for an empty prepared path, and
`<cache>/<name>/<basename>` for a prepared path whose basename is not empty and does
not start with a colon.  It calls the catalog once, the downloader and the hook not at
all, leaves the prepared table as it was and adds `name -> (artifact, query)` to the
instance table. -/
theorem fetch_image_prepared_hit (env : Env) (fetch_type : FetchType) (query : Query)
    (prepare : PrepareAction) (s : State) (info : VMImageInfo) (record : VaultRecord)
    (h_absent : map_find s.instance_image_records query.name = none)
    (h_info : env.image_host query = some info)
    (h_prepared : map_find s.prepared_image_records info.id = some record)
    (h_cache : ordinary_cache_dir env.cache_dir)
    (h_name : plain_name query.name)
    (h_dir : query.name ∉ s.dirs)
    (h_file : env.cache_dir ++ "/" ++ query.name ∉ s.files)
    (h_journal : query.name ≠ instance_db_name ∧ query.name ≠ image_db_name)
    (h_fs : env.mkdir_refused query.name = false) :
    ∃ vm_image s',
      fetch_image env fetch_type query prepare s = (.ok vm_image, s') ∧
      vm_image
        = ⟨instance_path env.cache_dir query.name record.image.image_path,
           instance_path env.cache_dir query.name record.image.kernel_path,
           instance_path env.cache_dir query.name record.image.initrd_path,
           record.image.id⟩ ∧
      (∀ path ∈ paths_of record.image, path = "" →
        instance_path env.cache_dir query.name path = "") ∧
      (∀ path ∈ paths_of record.image, path ≠ "" → has_ordinary_basename path →
        instance_path env.cache_dir query.name path
          = env.cache_dir ++ "/" ++ query.name ++ "/" ++ filename_for path) ∧
      s'.info_for_calls = s.info_for_calls + 1 ∧
      s'.download_calls = s.download_calls ∧
      s'.prepare_calls = s.prepare_calls ∧
      s'.prepared_image_records = s.prepared_image_records ∧
      s'.instance_image_records
        = s.instance_image_records ++ [(query.name, ⟨vm_image, query⟩)] := by
  have hkey : query.name ∉ map_keys s.instance_image_records :=
    (map_find_eq_none_iff _ _).mp h_absent
  have hmk : mkdir_succeeds env query.name
      { s with info_for_calls := s.info_for_calls + 1 } = true :=
    mkdir_succeeds_of_plain_name env query.name _ h_cache h_name h_dir h_file h_journal h_fs
  have hstep : fetch_image env fetch_type query prepare s
      = fetch_hit env query record { s with info_for_calls := s.info_for_calls + 1 } := by
    simp [fetch_image, h_absent, info_for, h_info, h_prepared]
  rcases hr : fetch_hit env query record { s with info_for_calls := s.info_for_calls + 1 }
    with ⟨e | vm_image, s'⟩
  · obtain ⟨-, -, hfail⟩ := fetch_hit_error _ _ _ _ _ _ hr
    rw [hmk] at hfail
    cases hfail
  · obtain ⟨-, hvm, k1, k2, -, -, k5, k6, k7⟩ := fetch_hit_ok _ _ _ _ _ _ hr
    refine ⟨vm_image, s', hstep.trans hr, hvm, ?_, ?_, k5, k6, k7, k1, ?_⟩
    · intro path _ hp
      simp [instance_path, hp]
    · intro path _ hp hb
      exact instance_path_of_ordinary _ _ _ h_cache h_name hp hb
    · rw [k2]
      exact map_assign_of_not_mem _ _ _ hkey

theorem fetch_image_prepared_hit_witness :
    map_find after_first_fetch.instance_image_records "inst1" = none ∧
    earlier.image_host ⟨"inst1", "16.04", true⟩ = some info_16_04 ∧
    map_find after_first_fetch.prepared_image_records info_16_04.id
      = some ⟨⟨"/cache/16.04-7/old.img", "", "", "old789"⟩, ⟨"inst_old", "16.04", true⟩⟩ ∧
    ordinary_cache_dir earlier.cache_dir ∧
    plain_name "inst1" ∧
    "inst1" ∉ after_first_fetch.dirs ∧
    "/cache/inst1" ∉ after_first_fetch.files ∧
    ("inst1" ≠ instance_db_name ∧ "inst1" ≠ image_db_name) ∧
    earlier.mkdir_refused "inst1" = false ∧
    ∃ vm_image s',
      fetch_image earlier .ImageOnly ⟨"inst1", "16.04", true⟩ identity_prepare after_first_fetch
        = (.ok vm_image, s') ∧
      vm_image = ⟨"/cache/inst1/old.img", "", "", "old789"⟩ ∧
      s'.info_for_calls = after_first_fetch.info_for_calls + 1 ∧
      s'.download_calls = after_first_fetch.download_calls ∧
      s'.prepare_calls = after_first_fetch.prepare_calls ∧
      s'.prepared_image_records = after_first_fetch.prepared_image_records ∧
      s'.instance_image_records
        = after_first_fetch.instance_image_records
            ++ [("inst1", ⟨vm_image, ⟨"inst1", "16.04", true⟩⟩)] :=
  have h_cache : ordinary_cache_dir earlier.cache_dir := by
    unfold ordinary_cache_dir
    decide
  have h_name : plain_name "inst1" := by
    unfold plain_name
    decide
  have h_journal : "inst1" ≠ instance_db_name ∧ "inst1" ≠ image_db_name := by decide
  have h_dir : "inst1" ∉ after_first_fetch.dirs := by decide
  have h_file : earlier.cache_dir ++ "/" ++ "inst1" ∉ after_first_fetch.files := by decide
  match fetch_image_prepared_hit earlier .ImageOnly ⟨"inst1", "16.04", true⟩ identity_prepare
      after_first_fetch info_16_04 _ rfl rfl rfl h_cache h_name h_dir h_file h_journal rfl with
  | ⟨vm_image, s', h1, h2, _, _, h5, h6, h7, h8, h9⟩ =>
    ⟨rfl, rfl, rfl, h_cache, h_name, h_dir, h_file, h_journal, rfl,
      vm_image, s', h1, h2, h5, h6, h7, h8, h9⟩

/-- C8. On a vault constructed on an empty cache directory, with fetch type `ImageOnly`
and the same catalog, downloader and hook for both calls: if `fetch_image` returns an
artifact, a second call with the same arguments returns the same artifact, and after
the two calls the downloader has been called once and the prepare hook once. -/
theorem fetch_image_twice (env : Env) (query : Query) (prepare : PrepareAction)
    (vm_image : VMImage) (s1 : State)
    (h : fetch_image env .ImageOnly query prepare cold_cache = (.ok vm_image, s1)) :
    (fetch_image env .ImageOnly query prepare s1).1 = .ok vm_image ∧
    (fetch_image env .ImageOnly query prepare s1).2.download_calls = 1 ∧
    (fetch_image env .ImageOnly query prepare s1).2.prepare_calls = 1 := by
  rcases fetch_image_ok _ _ _ _ _ _ _ h with
    ⟨record, hfind, -, -⟩ | ⟨-, _, record, -, hfind, -⟩ |
    ⟨-, info, src, img, keys, -, -, -, -, -, hi, -, -, hp, hd⟩
  · cases hfind
  · cases hfind
  · have hfind : map_find s1.instance_image_records query.name = some ⟨vm_image, query⟩ := by
      rw [hi]
      exact map_find_assign_self _ _ _
    have hsecond : fetch_image env .ImageOnly query prepare s1 = (.ok vm_image, s1) := by
      simp [fetch_image, hfind]
    rw [hsecond]
    exact ⟨rfl, hd rfl, hp⟩

theorem fetch_image_twice_witness :
    fetch_image healthy .ImageOnly (query_18_04 "inst0") identity_prepare cold_cache
      = (.ok ⟨"/cache/inst0/img.img", "", "", "abc123"⟩,
         (fetch_image healthy .ImageOnly (query_18_04 "inst0") identity_prepare cold_cache).2) ∧
    (fetch_image healthy .ImageOnly (query_18_04 "inst0") identity_prepare
      (fetch_image healthy .ImageOnly (query_18_04 "inst0") identity_prepare cold_cache).2).1
      = .ok ⟨"/cache/inst0/img.img", "", "", "abc123"⟩ ∧
    (fetch_image healthy .ImageOnly (query_18_04 "inst0") identity_prepare
      (fetch_image healthy .ImageOnly (query_18_04 "inst0") identity_prepare
        cold_cache).2).2.download_calls = 1 ∧
    (fetch_image healthy .ImageOnly (query_18_04 "inst0") identity_prepare
      (fetch_image healthy .ImageOnly (query_18_04 "inst0") identity_prepare
        cold_cache).2).2.prepare_calls = 1 :=
  ⟨rfl, fetch_image_twice healthy (query_18_04 "inst0") identity_prepare _ _ rfl⟩
/-! ### C12 to C14: `remove` and the source cleanup -/

theorem map_find_erase_self {α : Type} (key : String) (m : StringMap α) :
    map_find (map_erase key m) key = none := by
  induction m with
  | nil => rfl
  | cons e rest ih =>
    obtain ⟨k, v⟩ := e
    by_cases hk : k = key <;> simp [map_erase, map_find, hk, ih]

theorem remove_of_absent (env : Env) (name : String) (s : State)
    (h : map_find s.instance_image_records name = none) : remove env name s = s := by
  simp [remove, h]

/-- C12. `remove` is idempotent: when the name is not in the instance table, `remove`
leaves the whole state as it was (tables, journals, files and directories); when it is,
the name is absent after the call; in both cases a second call changes nothing, so the
state after two calls is the state after one. -/
theorem remove_idempotent (env : Env) (name : String) (s : State) :
    (map_find s.instance_image_records name = none → remove env name s = s) ∧
    (∀ record, map_find s.instance_image_records name = some record →
      map_find (remove env name s).instance_image_records name = none) ∧
    remove env name (remove env name s) = remove env name s := by
  have habsent : map_find (remove env name s).instance_image_records name = none := by
    obtain ⟨-, -, hcase⟩ := remove_spec env name s
    rcases hcase with ⟨hnone, hsame⟩ | ⟨hi, -⟩
    · rw [hsame]
      exact hnone
    · rw [hi]
      exact map_find_erase_self name _
  exact ⟨remove_of_absent env name s, fun _ _ => habsent,
    remove_of_absent env name _ habsent⟩

theorem remove_idempotent_witness :
    map_find after_cold_fetch.instance_image_records "inst0"
      = some ⟨⟨"/cache/inst0/img.img", "", "", "abc123"⟩, query_18_04 "inst0"⟩ ∧
    (remove healthy "inst0" after_cold_fetch).files = ["/cache/18.04-1/img.img"] ∧
    (remove healthy "inst0" after_cold_fetch).dirs = ["18.04-1"] ∧
    map_find (remove healthy "inst0" after_cold_fetch).instance_image_records "inst0" = none ∧
    remove healthy "inst0" (remove healthy "inst0" after_cold_fetch)
      = remove healthy "inst0" after_cold_fetch :=
  ⟨rfl, rfl, rfl,
   (remove_idempotent healthy "inst0" after_cold_fetch).2.1 _ rfl,
   (remove_idempotent healthy "inst0" after_cold_fetch).2.2⟩

theorem mem_files_delete_if (c : Prop) [Decidable c] (path : String) (s : State) (f : String) :
    f ∈ (if c then delete_file path s else s).files ↔ f ∈ s.files ∧ ¬ (f = path ∧ c) := by
  by_cases hc : c
  · simp [hc, delete_file]
  · simp [hc]

theorem dirs_delete_if (c : Prop) [Decidable c] (path : String) (s : State) :
    (if c then delete_file path s else s).dirs = s.dirs := by
  by_cases hc : c <;> simp [hc, delete_file]

theorem mem_files_remove_source_images (source_image prepared_image : VMImage) (s : State)
    (path : String) :
    path ∈ (remove_source_images source_image prepared_image s).files
      ↔ path ∈ s.files ∧ ¬ superseded source_image prepared_image path := by
  unfold remove_source_images superseded
  simp only [mem_files_delete_if]
  tauto

/-- C13, as stated, fails: when image and kernel have the same source path, the image
keeps it and the kernel gets another prepared path, the paths of the image field agree
and yet the source file of the image field is deleted, by the test of the kernel field
(line 147). -/
theorem shared_source_path_is_deleted :
    shared_sources.image_path = shared_prepared.image_path ∧
    shared_sources.image_path ∈ shared_cache.files ∧
    shared_sources.image_path
      ∉ (remove_source_images shared_sources shared_prepared shared_cache).files :=
  ⟨rfl, by decide, by decide⟩

/-- C13, amended.  The source cleanup removes exactly the superseded files: a file is in
the cache after `remove_source_images` when it was there before and is not the source
path of a field (image, kernel or initrd) whose source path differs from the prepared
path of the same field.  Field by field: an existing source file is deleted exactly
when its source path differs from the prepared path of its field or is also the source
path of another field whose paths differ.  Directories, tables, journals and counters
are untouched, and when the prepared artifact is the source artifact (identity hook)
the state is unchanged. -/
theorem remove_source_images_removes_superseded (source_image prepared_image : VMImage)
    (s : State) :
    (∀ path, path ∈ (remove_source_images source_image prepared_image s).files
      ↔ path ∈ s.files ∧ ¬ superseded source_image prepared_image path) ∧
    (source_image.image_path ∈ s.files →
      (source_image.image_path ∉ (remove_source_images source_image prepared_image s).files
        ↔ source_image.image_path ≠ prepared_image.image_path ∨
          (source_image.image_path = source_image.kernel_path ∧
            source_image.kernel_path ≠ prepared_image.kernel_path) ∨
          (source_image.image_path = source_image.initrd_path ∧
            source_image.initrd_path ≠ prepared_image.initrd_path))) ∧
    (source_image.kernel_path ∈ s.files →
      (source_image.kernel_path ∉ (remove_source_images source_image prepared_image s).files
        ↔ source_image.kernel_path ≠ prepared_image.kernel_path ∨
          (source_image.kernel_path = source_image.image_path ∧
            source_image.image_path ≠ prepared_image.image_path) ∨
          (source_image.kernel_path = source_image.initrd_path ∧
            source_image.initrd_path ≠ prepared_image.initrd_path))) ∧
    (source_image.initrd_path ∈ s.files →
      (source_image.initrd_path ∉ (remove_source_images source_image prepared_image s).files
        ↔ source_image.initrd_path ≠ prepared_image.initrd_path ∨
          (source_image.initrd_path = source_image.image_path ∧
            source_image.image_path ≠ prepared_image.image_path) ∨
          (source_image.initrd_path = source_image.kernel_path ∧
            source_image.kernel_path ≠ prepared_image.kernel_path))) ∧
    (remove_source_images source_image prepared_image s).dirs = s.dirs ∧
    DiskOnly s (remove_source_images source_image prepared_image s) ∧
    remove_source_images source_image source_image s = s := by
  refine ⟨mem_files_remove_source_images _ _ _, ?_, ?_, ?_, ?_,
    diskOnly_remove_source_images _ _ _, ?_⟩
  · intro hin
    rw [mem_files_remove_source_images]
    unfold superseded
    constructor
    · intro hnot
      by_contra hc
      apply hnot
      refine ⟨hin, ?_⟩
      rintro (⟨-, h⟩ | ⟨he, h⟩ | ⟨he, h⟩)
      · exact hc (Or.inl h)
      · exact hc (Or.inr (Or.inl ⟨he, h⟩))
      · exact hc (Or.inr (Or.inr ⟨he, h⟩))
    · rintro (h | ⟨he, h⟩ | ⟨he, h⟩) ⟨-, hnot⟩
      · exact hnot (Or.inl ⟨rfl, h⟩)
      · exact hnot (Or.inr (Or.inl ⟨he, h⟩))
      · exact hnot (Or.inr (Or.inr ⟨he, h⟩))
  · intro hin
    rw [mem_files_remove_source_images]
    unfold superseded
    constructor
    · intro hnot
      by_contra hc
      apply hnot
      refine ⟨hin, ?_⟩
      rintro (⟨he, h⟩ | ⟨-, h⟩ | ⟨he, h⟩)
      · exact hc (Or.inr (Or.inl ⟨he, h⟩))
      · exact hc (Or.inl h)
      · exact hc (Or.inr (Or.inr ⟨he, h⟩))
    · rintro (h | ⟨he, h⟩ | ⟨he, h⟩) ⟨-, hnot⟩
      · exact hnot (Or.inr (Or.inl ⟨rfl, h⟩))
      · exact hnot (Or.inl ⟨he, h⟩)
      · exact hnot (Or.inr (Or.inr ⟨he, h⟩))
  · intro hin
    rw [mem_files_remove_source_images]
    unfold superseded
    constructor
    · intro hnot
      by_contra hc
      apply hnot
      refine ⟨hin, ?_⟩
      rintro (⟨he, h⟩ | ⟨he, h⟩ | ⟨-, h⟩)
      · exact hc (Or.inr (Or.inl ⟨he, h⟩))
      · exact hc (Or.inr (Or.inr ⟨he, h⟩))
      · exact hc (Or.inl h)
    · rintro (h | ⟨he, h⟩ | ⟨he, h⟩) ⟨-, hnot⟩
      · exact hnot (Or.inr (Or.inr ⟨rfl, h⟩))
      · exact hnot (Or.inl ⟨he, h⟩)
      · exact hnot (Or.inr (Or.inl ⟨he, h⟩))
  · unfold remove_source_images
    simp only [dirs_delete_if]
  · simp [remove_source_images]

theorem remove_source_images_removes_superseded_witness :
    three_sources.image_path ∈ after_three_downloads.files ∧
    (remove_source_images three_sources
        ⟨"/cache/18.04-1/img.qcow2", "/cache/18.04-1/vmlinuz", "/cache/18.04-1/initrd.img",
          "abc123"⟩
        after_three_downloads).files
      = ["/cache/18.04-1/initrd.img", "/cache/18.04-1/vmlinuz"] ∧
    three_sources.image_path ∉ (remove_source_images three_sources
        ⟨"/cache/18.04-1/img.qcow2", "/cache/18.04-1/vmlinuz", "/cache/18.04-1/initrd.img",
          "abc123"⟩
        after_three_downloads).files :=
  ⟨by decide, rfl,
   ((remove_source_images_removes_superseded three_sources _ after_three_downloads).2.1
      (by decide)).mpr (Or.inl (by decide))⟩

/-- C14, as stated, fails: when the hook returns the source artifact with kernel and
initrd exchanged, both paths differ from the source path of their own field, so the
cleanup removes `vmlinuz` and `initrd.img`, which are the initrd and kernel of the
prepared artifact; the fetch returns and publishes a prepared record whose kernel and
initrd files no longer exist. -/
theorem cleanup_removes_prepared_files :
    swapping_prepare.run three_sources
      = some ⟨"/cache/18.04-1/img.img", "/cache/18.04-1/initrd.img", "/cache/18.04-1/vmlinuz",
          "abc123"⟩ ∧
    "/cache/18.04-1/initrd.img" ∈ after_three_downloads.files ∧
    "/cache/18.04-1/initrd.img" ∉ (remove_source_images three_sources
        ⟨"/cache/18.04-1/img.img", "/cache/18.04-1/initrd.img", "/cache/18.04-1/vmlinuz",
          "abc123"⟩
        after_three_downloads).files ∧
    (fetch_image healthy .ImageKernelAndInitrd (query_18_04 "inst0") swapping_prepare
      cold_cache).1
      = .ok ⟨"/cache/inst0/img.img", "/cache/inst0/initrd.img", "/cache/inst0/vmlinuz",
          "abc123"⟩ ∧
    map_find (fetch_image healthy .ImageKernelAndInitrd (query_18_04 "inst0") swapping_prepare
      cold_cache).2.prepared_image_records "abc123"
      = some ⟨⟨"/cache/18.04-1/img.img", "/cache/18.04-1/initrd.img",
          "/cache/18.04-1/vmlinuz", "abc123"⟩, query_18_04 "inst0"⟩ ∧
    (fetch_image healthy .ImageKernelAndInitrd (query_18_04 "inst0") swapping_prepare
      cold_cache).2.files = ["/cache/inst0/img.img", "/cache/18.04-1/img.img"] :=
  ⟨rfl, by decide, by decide, rfl, rfl, rfl⟩

/-- C14, amended. When every prepared path that is the source path of a different field
belongs to a field whose source file was left in place (source path equal to prepared
path), the source cleanup removes no file whose path is in a field of the prepared
artifact: each such file that existed after prepare exists after the cleanup. -/
theorem cleanup_keeps_prepared_files (source_image prepared_image : VMImage) (s : State)
    (h : reuses_only_kept_sources source_image prepared_image)
    (path : String) (h_prepared : path ∈ paths_of prepared_image) (h_exists : path ∈ s.files) :
    path ∈ (remove_source_images source_image prepared_image s).files := by
  rw [mem_files_remove_source_images]
  refine ⟨h_exists, ?_⟩
  obtain ⟨h1, h2, h3, h4, h5, h6⟩ := h
  simp only [paths_of, List.mem_cons, List.mem_singleton, List.not_mem_nil, or_false]
    at h_prepared
  unfold superseded
  rintro (⟨hp, hne⟩ | ⟨hp, hne⟩ | ⟨hp, hne⟩)
  · rcases h_prepared with hq | hq | hq
    · exact hne (hp.symm.trans hq)
    · exact hne (h1 (hq.symm.trans hp))
    · exact hne (h2 (hq.symm.trans hp))
  · rcases h_prepared with hq | hq | hq
    · exact hne (h3 (hq.symm.trans hp))
    · exact hne (hp.symm.trans hq)
    · exact hne (h4 (hq.symm.trans hp))
  · rcases h_prepared with hq | hq | hq
    · exact hne (h5 (hq.symm.trans hp))
    · exact hne (h6 (hq.symm.trans hp))
    · exact hne (hp.symm.trans hq)

theorem cleanup_keeps_prepared_files_witness :
    reuses_only_kept_sources three_sources
      ⟨"/cache/18.04-1/img.qcow2", "/cache/18.04-1/vmlinuz", "/cache/18.04-1/initrd.img",
        "abc123"⟩ ∧
    "/cache/18.04-1/vmlinuz" ∈ paths_of
      ⟨"/cache/18.04-1/img.qcow2", "/cache/18.04-1/vmlinuz", "/cache/18.04-1/initrd.img",
        "abc123"⟩ ∧
    "/cache/18.04-1/vmlinuz" ∈ after_three_downloads.files ∧
    "/cache/18.04-1/vmlinuz" ∈ (remove_source_images three_sources
        ⟨"/cache/18.04-1/img.qcow2", "/cache/18.04-1/vmlinuz", "/cache/18.04-1/initrd.img",
          "abc123"⟩
        after_three_downloads).files :=
  have h_reuse : reuses_only_kept_sources three_sources
      ⟨"/cache/18.04-1/img.qcow2", "/cache/18.04-1/vmlinuz", "/cache/18.04-1/initrd.img",
        "abc123"⟩ := by
    unfold reuses_only_kept_sources
    decide
  ⟨h_reuse, by decide, by decide,
   cleanup_keeps_prepared_files three_sources _ after_three_downloads h_reuse
     "/cache/18.04-1/vmlinuz" (by decide) (by decide)⟩
/-! ### C11: invalidation -/

end multipass
